import Mathlib

/-!
Verification of the rbx_xml serializer (src/rbx_xml/src/serializer.rs).

The Rust module is shallowly embedded: each Rust item is translated to a
Lean definition of the same name where possible.  External collaborators
(the reflection database lookup `find_serialized_property_descriptor`, the
variant conversion `try_convert_ref`, migrations, base64, the content hash
of shared strings and UTF-8 decoding) are taken as parameters, since they
live outside the serializer module.  The streaming XML writer is modelled
as a list of abstract markup events.
-/

namespace RbxXml

/-- Opaque node handle (`rbx_dom_weak::types::Ref`). -/
abbrev Ref := Nat

/-- Type tags of the platform value domain (`VariantType`). -/
inductive VariantType where
  | str
  | sharedStr
  | enum
  | int64
  | float32
  | otherTy (tag : Nat)
deriving DecidableEq, Repr

/-- The platform value domain (`rbx_dom_weak::types::Variant`), reduced to a
representative closed set of variants; each carries enough information to
report its own type tag, as in the source. -/
inductive Variant where
  | str (s : String)
  | sharedStr (data : List Nat)
  | enum (value : Nat)
  | int64 (value : Int)
  | float32 (value : Int)
  | otherVal (tag : Nat)
deriving DecidableEq, Repr

/-- `Variant::ty` — the type tag of a stored value. -/
def Variant.ty : Variant → VariantType
  | .str _ => .str
  | .sharedStr _ => .sharedStr
  | .enum _ => .enum
  | .int64 _ => .int64
  | .float32 _ => .float32
  | .otherVal tag => .otherTy tag

/-- A shared binary payload (`rbx_dom_weak::types::SharedString`): content
bytes; its hash is computed by a content-hash function taken as a
parameter. -/
structure SharedString where
  data : List Nat
deriving DecidableEq, Repr

/-- A property migration attached to a descriptor
(`rbx_reflection::PropertyMigration`): a target property name and a
fallible transform, both external to the serializer. -/
structure Migration where
  new_property_name : String
  perform : Variant → Except Unit Variant

/-- `rbx_reflection::PropertySerialization`, as matched by the serializer:
only the `Migrate` arm is inspected. -/
inductive PropertySerialization where
  | serializes
  | migrate (m : Migration)

/-- `rbx_reflection::PropertyKind`: the serializer inspects only
`Canonical { serialization }`. -/
inductive PropertyKind where
  | canonical (serialization : PropertySerialization)
  | alias (aliasFor : String)

/-- `rbx_reflection::DataType`: a concrete value type or an enum name. -/
inductive DataType where
  | value (t : VariantType)
  | enum (enumName : String)

/-- A serialized property descriptor from the reflection schema: canonical
on-disk name, declared data type, and kind (possibly carrying a
migration). -/
structure PropertyDescriptor where
  name : String
  data_type : DataType
  kind : PropertyKind

/-- The reflection database, abstracted to the single lookup the serializer
performs: `find_serialized_property_descriptor(class, property, db)`. -/
def Database := String → String → Option PropertyDescriptor

/-- The conversion primitive `Variant::try_convert_ref(target type)` from
`crate::conversion`, external to this module: fallible, returns either a
converted value or a reason message. -/
def TryConvert := Variant → VariantType → Except String Variant

/-- `EncodePropertyBehavior` — strategy for properties unknown to rbx_xml. -/
inductive EncodePropertyBehavior where
  | ignoreUnknown
  | writeUnknown
  | errorOnUnknown
  | noReflection
deriving DecidableEq, Repr

/-- `EncodeOptions`: the unknown-property policy and the reflection
database to consult. -/
structure EncodeOptions where
  property_behavior : EncodePropertyBehavior
  database : Database

/-- `EncodeOptions::use_reflection` — schema lookups happen unless the
behavior is `NoReflection`. -/
def EncodeOptions.use_reflection (o : EncodeOptions) : Bool :=
  o.property_behavior != .noReflection

/-- `EncodeErrorKind` — the error taxonomy raised by the serializer. -/
inductive EncodeErrorKind where
  | unsupportedPropertyConversion (class_name : String) (property_name : String)
      (expected_type : VariantType) (actual_type : VariantType) (message : String)
  | unknownProperty (class_name : String) (property_name : String)
  | custom (message : String)
deriving DecidableEq, Repr

/-- One abstract markup event of the streaming XML writer
(`serializer_core::XmlWriteEvent` plus the property emission performed by
`types::write_value_xml`). -/
inductive XmlEvent where
  | startElement (name : String) (attrs : List (String × String))
  | endElement
  | prop (name : String) (value : Variant)
  | text (s : String)
deriving DecidableEq, Repr

/-- Result of a serializer call: success, a structured encode error, a Rust
panic (`unwrap` failure), or fuel exhaustion of the embedding (the Rust
recursion carries no fuel; `outOfFuel` only signals that the chosen depth
bound was too small, never a behavior of the source). -/
inductive Res (α : Type) where
  | ok (a : α)
  | err (e : EncodeErrorKind)
  | panicked
  | outOfFuel
deriving Repr

/-- Lexicographic byte-order on content hashes: the `Ord` instance of
`SharedStringHash` used by the `BTreeMap` keying shared strings. -/
def bytesLt : List Nat → List Nat → Bool
  | [], [] => false
  | [], _ :: _ => true
  | _ :: _, [] => false
  | a :: as, b :: bs => if a < b then true else if b < a then false else bytesLt as bs

/-- Insertion into the `BTreeMap<SharedStringHash, SharedString>`: keeps the
association list strictly sorted by key; inserting an existing key replaces
its value, as `BTreeMap::insert` does. -/
def btreeInsert (k : List Nat) (v : SharedString) :
    List (List Nat × SharedString) → List (List Nat × SharedString)
  | [] => [(k, v)]
  | (k', v') :: rest =>
    if bytesLt k k' then (k, v) :: (k', v') :: rest
    else if k = k' then (k, v) :: rest
    else (k', v') :: btreeInsert k v rest

/-- Association-list lookup modelling `HashMap::get`. -/
def lk (m : List (Ref × Nat)) (r : Ref) : Option Nat :=
  match m with
  | [] => none
  | (r', v) :: rest => if r = r' then some v else lk rest r

/-- `EmitState` — internal state threaded through one encode call: the
options, the referent map (`HashMap<Ref, u32>` as an association list, only
ever consulted by key), the next referent counter, and the shared-string
`BTreeMap` as a sorted association list. -/
structure EmitState where
  options : EncodeOptions
  referent_map : List (Ref × Nat)
  next_referent : Nat
  shared_strings_to_emit : List (List Nat × SharedString)

/-- `EmitState::new`. -/
def EmitState.new (options : EncodeOptions) : EmitState :=
  { options := options
    referent_map := []
    next_referent := 0
    shared_strings_to_emit := [] }

/-- `EmitState::map_id` — return the recorded referent for `id`, or allocate
the next counter value and record it.  The counter is a `u32` and the
increment is the unchecked `+= 1`, which wraps modulo `2 ^ 32` in release
builds; the model keeps that wrap explicit. -/
def EmitState.map_id (st : EmitState) (id : Ref) : Nat × EmitState :=
  match lk st.referent_map id with
  | some value => (value, st)
  | none =>
    (st.next_referent,
      { st with
        referent_map := (id, st.next_referent) :: st.referent_map
        next_referent := (st.next_referent + 1) % 2 ^ 32 })

/-- `EmitState::add_shared_string` — register a blob keyed by its content
hash. -/
def EmitState.add_shared_string (hashFn : List Nat → List Nat) (st : EmitState)
    (value : SharedString) : EmitState :=
  { st with
    shared_strings_to_emit :=
      btreeInsert (hashFn value.data) value st.shared_strings_to_emit }

/-- An instance node of the weak DOM: class name, display name, stored
properties (a hash map, embedded as a list in iteration order) and the
ordered child handles. -/
structure Instance where
  className : String
  name : String
  properties : List (String × Variant)
  children : List Ref

/-- The weak DOM, abstracted to the lookup the serializer performs:
`WeakDom::get_by_ref`. -/
structure WeakDom where
  getByRef : Ref → Option Instance

/-- Modelled from the spec: `types::write_value_xml` (this repository's
property emission code, not under src/) emits one property entry tagged
with its name and value through the markup sink, and registers any shared
binary payload the value carries in the Shared-Blob Registry. -/
def write_value_xml (hashFn : List Nat → List Nat) (st : EmitState)
    (name : String) (value : Variant) : EmitState × List XmlEvent :=
  match value with
  | .sharedStr data => (st.add_shared_string hashFn ⟨data⟩, [.prop name value])
  | v => (st, [.prop name v])

/-- Lexicographic comparison of character lists by code point, the order
`String`'s `Ord` instance uses in Rust (byte-wise UTF-8 order coincides
with code-point order). -/
def charsLe : List Char → List Char → Bool
  | [], _ => true
  | _ :: _, [] => false
  | a :: as, b :: bs =>
    if a.toNat < b.toNat then true
    else if b.toNat < a.toNat then false
    else charsLe as bs

/-- Lexicographic string comparison used as the sort key order. -/
def sLe (a b : String) : Bool := charsLe a.toList b.toList

/-- The sort of the property buffer:
`property_buffer.sort_unstable_by_key(|(key, _)| *key)` — sorting the
collected properties by property name. -/
def sortProps (l : List (String × Variant)) : List (String × Variant) :=
  List.insertionSort (fun a b => sLe a.1 b.1 = true) l

/-- The declared type of a descriptor as the serializer computes it
(serializer.rs lines 182-186): a concrete value type is used as is; an enum
reference serializes as `Enum` regardless of the enum's name. -/
def descriptorDataType (sd : PropertyDescriptor) : VariantType :=
  match sd.data_type with
  | .value data_type => data_type
  | .enum _ => VariantType.enum

/-- The body of the per-property loop of `serialize_instance`
(serializer.rs lines 170-230): resolve the property against the schema when
reflection is in use, then either coerce/migrate/emit, or apply the
unknown-property policy. -/
def serialize_property (tc : TryConvert) (hashFn : List Nat → List Nat)
    (className : String) (st : EmitState) (property_name : String)
    (value : Variant) : Res (EmitState × List XmlEvent) :=
  let maybe_serialized_descriptor :=
    if st.options.use_reflection then
      st.options.database className property_name
    else
      none
  match maybe_serialized_descriptor with
  | some serialized_descriptor =>
    let data_type := descriptorDataType serialized_descriptor
    match tc value data_type with
    | .error message =>
      .err (.unsupportedPropertyConversion className property_name
        data_type value.ty message)
    | .ok converted_value =>
      match serialized_descriptor.kind with
      | .canonical (.migrate migration) =>
        match migration.perform converted_value with
        | .ok new_value =>
          .ok (write_value_xml hashFn st migration.new_property_name new_value)
        | .error _ =>
          .ok (write_value_xml hashFn st serialized_descriptor.name converted_value)
      | _ =>
        .ok (write_value_xml hashFn st serialized_descriptor.name converted_value)
  | none =>
    match st.options.property_behavior with
    | .ignoreUnknown => .ok (st, [])
    | .writeUnknown => .ok (write_value_xml hashFn st property_name value)
    | .noReflection => .ok (write_value_xml hashFn st property_name value)
    | .errorOnUnknown => .err (.unknownProperty className property_name)

/-- The per-property loop of `serialize_instance` over the sorted buffer:
events accumulate in order; the first failure aborts the loop. -/
def serialize_properties (tc : TryConvert) (hashFn : List Nat → List Nat)
    (className : String) :
    EmitState → List (String × Variant) → Res (EmitState × List XmlEvent)
  | st, [] => .ok (st, [])
  | st, (property_name, value) :: rest =>
    match serialize_property tc hashFn className st property_name value with
    | .ok (st', evs) =>
      match serialize_properties tc hashFn className st' rest with
      | .ok (st'', evs') => .ok (st'', evs ++ evs')
      | .err e => .err e
      | .panicked => .panicked
      | .outOfFuel => .outOfFuel
    | .err e => .err e
    | .panicked => .panicked
    | .outOfFuel => .outOfFuel

/-- The child loop shared by `serialize_instance` (recursion into children)
and `encode_internal` (loop over the top-level ids): serialize each handle
in order with the given serializer, accumulating events; the first failure
aborts. -/
def foldChildren (f : EmitState → Ref → Res (EmitState × List XmlEvent)) :
    EmitState → List Ref → Res (EmitState × List XmlEvent)
  | st, [] => .ok (st, [])
  | st, c :: cs =>
    match f st c with
    | .ok (st', evs) =>
      match foldChildren f st' cs with
      | .ok (st'', evs') => .ok (st'', evs ++ evs')
      | .err e => .err e
      | .panicked => .panicked
      | .outOfFuel => .outOfFuel
    | .err e => .err e
    | .panicked => .panicked
    | .outOfFuel => .outOfFuel

/-- `serialize_instance` — serialize a single instance and its children.
The `unwrap` on `get_by_ref` is embedded as `.panicked`; the recursion is
bounded by fuel (depth), which the Rust source does not need. -/
def serialize_instance (tc : TryConvert) (hashFn : List Nat → List Nat)
    (tree : WeakDom) : Nat → EmitState → Ref → Res (EmitState × List XmlEvent)
  | 0, _, _ => .outOfFuel
  | fuel + 1, st, id =>
    match tree.getByRef id with
    | none => .panicked
    | some inst =>
      let mapped_id := (st.map_id id).1
      let st1 := (st.map_id id).2
      let itemOpen : XmlEvent :=
        .startElement "Item"
          [("class", inst.className), ("referent", toString mapped_id)]
      let propsOpen : XmlEvent := .startElement "Properties" []
      let st2 := (write_value_xml hashFn st1 "Name" (.str inst.name)).1
      let nameEvs := (write_value_xml hashFn st1 "Name" (.str inst.name)).2
      match serialize_properties tc hashFn inst.className st2
          (sortProps inst.properties) with
      | .ok (st3, propEvs) =>
        match foldChildren (serialize_instance tc hashFn tree fuel) st3
            inst.children with
        | .ok (st4, childEvs) =>
          .ok (st4,
            itemOpen :: propsOpen ::
              (nameEvs ++ propEvs ++ [.endElement] ++ childEvs ++ [.endElement]))
        | .err e => .err e
        | .panicked => .panicked
        | .outOfFuel => .outOfFuel
      | .err e => .err e
      | .panicked => .panicked
      | .outOfFuel => .outOfFuel

/-- `serialize_shared_strings` — emit the trailing `SharedStrings` block:
nothing when no blob was registered, else one `SharedString` element per
registered blob in map order, its `md5` attribute carrying the base64 text
of the first 16 bytes of the full content hash and its text content the
base64 of the payload. -/
def serialize_shared_strings (hashFn : List Nat → List Nat)
    (base64 : List Nat → String) (st : EmitState) : List XmlEvent :=
  if st.shared_strings_to_emit.isEmpty then []
  else
    XmlEvent.startElement "SharedStrings" [] ::
      (st.shared_strings_to_emit.flatMap (fun kv =>
        let full_hash := hashFn kv.2.data
        let truncated_hash := full_hash.take 16
        [XmlEvent.startElement "SharedString" [("md5", base64 truncated_hash)],
          XmlEvent.text (base64 kv.2.data),
          XmlEvent.endElement]))
      ++ [XmlEvent.endElement]

/-- `encode_internal` — open the `roblox` root with its version attribute,
serialize each requested top-level instance in caller order, flush the
shared-string block, close the root. -/
def encode_internal (tc : TryConvert) (hashFn : List Nat → List Nat)
    (base64 : List Nat → String) (tree : WeakDom) (ids : List Ref)
    (options : EncodeOptions) (fuel : Nat) : Res (EmitState × List XmlEvent) :=
  match foldChildren (serialize_instance tc hashFn tree fuel)
      (EmitState.new options) ids with
  | .ok (st, evs) =>
    .ok (st,
      XmlEvent.startElement "roblox" [("version", "4")] ::
        (evs ++ serialize_shared_strings hashFn base64 st ++ [XmlEvent.endElement]))
  | .err e => .err e
  | .panicked => .panicked
  | .outOfFuel => .outOfFuel

/-- `to_string` — run `encode_internal` into a byte buffer and decode it as
UTF-8; the byte rendering of markup events and the UTF-8 decoder
(`String::from_utf8`) are external and taken as parameters.  A decoding
failure is mapped to a `Custom` error carrying the underlying diagnostic. -/
def to_string (tc : TryConvert) (hashFn : List Nat → List Nat)
    (base64 : List Nat → String) (render : List XmlEvent → List Nat)
    (fromUtf8 : List Nat → Except String String) (tree : WeakDom)
    (ids : List Ref) (options : EncodeOptions) (fuel : Nat) : Res String :=
  match encode_internal tc hashFn base64 tree ids options fuel with
  | .ok (_, evs) =>
    match fromUtf8 (render evs) with
    | .ok xml_string => .ok xml_string
    | .error e => .err (.custom ("UTF-8 conversion error: " ++ e))
  | .err e => .err e
  | .panicked => .panicked
  | .outOfFuel => .outOfFuel

/-! ### Basic facts about the emission primitives -/

/-- `write_value_xml` always emits exactly one property entry, tagged with
the given name and value. -/
theorem write_value_xml_events (hashFn : List Nat → List Nat) (st : EmitState)
    (name : String) (value : Variant) :
    (write_value_xml hashFn st name value).2 = [.prop name value] := by
  cases value <;> rfl

/-- `write_value_xml` does not touch the options nor the referent fields of
the state. -/
theorem write_value_xml_state (hashFn : List Nat → List Nat) (st : EmitState)
    (name : String) (value : Variant) :
    (write_value_xml hashFn st name value).1.options = st.options ∧
    (write_value_xml hashFn st name value).1.referent_map = st.referent_map ∧
    (write_value_xml hashFn st name value).1.next_referent = st.next_referent := by
  cases value <;> exact ⟨rfl, rfl, rfl⟩

/-- If `write_value_xml` produced the pair `(st', evs)`, then `st'` agrees
with the input state on options and the referent fields. -/
theorem state_eq_of_wvx (hashFn : List Nat → List Nat) (st st' : EmitState)
    (n : String) (v : Variant) (evs : List XmlEvent)
    (h : write_value_xml hashFn st n v = (st', evs)) :
    st'.options = st.options ∧ st'.referent_map = st.referent_map ∧
    st'.next_referent = st.next_referent := by
  have h1 : (write_value_xml hashFn st n v).1 = st' := by rw [h]
  rw [← h1]
  exact write_value_xml_state hashFn st n v

/-- A successful `serialize_property` leaves the options, the referent map
and the referent counter unchanged: every branch either keeps the state or
passes it through `write_value_xml`. -/
theorem serialize_property_state (tc : TryConvert) (hashFn : List Nat → List Nat)
    (cn : String) (st st' : EmitState) (p : String) (v : Variant)
    (evs : List XmlEvent)
    (h : serialize_property tc hashFn cn st p v = .ok (st', evs)) :
    st'.options = st.options ∧ st'.referent_map = st.referent_map ∧
    st'.next_referent = st.next_referent := by
  simp only [serialize_property] at h
  split at h
  case h_1 sd heq =>
    split at h
    case h_1 => exact absurd h (by simp)
    case h_2 conv hconv =>
      split at h
      case h_1 migration hkind =>
        split at h <;>
          · rw [Res.ok.injEq] at h
            exact state_eq_of_wvx hashFn st st' _ _ evs h
      case h_2 =>
        rw [Res.ok.injEq] at h
        exact state_eq_of_wvx hashFn st st' _ _ evs h
  case h_2 heq =>
    split at h
    case h_1 =>
      rw [Res.ok.injEq, Prod.mk.injEq] at h
      obtain ⟨h1, _⟩ := h
      subst h1
      exact ⟨rfl, rfl, rfl⟩
    case h_2 =>
      rw [Res.ok.injEq] at h
      exact state_eq_of_wvx hashFn st st' _ _ evs h
    case h_3 =>
      rw [Res.ok.injEq] at h
      exact state_eq_of_wvx hashFn st st' _ _ evs h
    case h_4 => exact absurd h (by simp)

/-! ### Branch characterizations of `serialize_property` -/

/-- Under `NoReflection`, no schema lookup happens: for every database and
every property the value is written exactly as stored. -/
theorem serialize_property_noReflection (tc : TryConvert)
    (hashFn : List Nat → List Nat) (cn : String) (st : EmitState) (p : String)
    (v : Variant) (hbeh : st.options.property_behavior = .noReflection) :
    serialize_property tc hashFn cn st p v =
      .ok (write_value_xml hashFn st p v) := by
  simp [serialize_property, EncodeOptions.use_reflection, hbeh]

/-- Unresolved property under `IgnoreUnknown`: dropped, state untouched. -/
theorem serialize_property_ignore (tc : TryConvert)
    (hashFn : List Nat → List Nat) (cn : String) (st : EmitState) (p : String)
    (v : Variant) (hbeh : st.options.property_behavior = .ignoreUnknown)
    (hfind : st.options.database cn p = none) :
    serialize_property tc hashFn cn st p v = .ok (st, []) := by
  simp [serialize_property, EncodeOptions.use_reflection, hbeh, hfind]

/-- Unresolved property under `WriteUnknown`: written with its stored name
and stored value. -/
theorem serialize_property_writeUnknown (tc : TryConvert)
    (hashFn : List Nat → List Nat) (cn : String) (st : EmitState) (p : String)
    (v : Variant) (hbeh : st.options.property_behavior = .writeUnknown)
    (hfind : st.options.database cn p = none) :
    serialize_property tc hashFn cn st p v =
      .ok (write_value_xml hashFn st p v) := by
  simp [serialize_property, EncodeOptions.use_reflection, hbeh, hfind]

/-- Unresolved property under `ErrorOnUnknown`: the structured
`UnknownProperty` error naming the class and the property. -/
theorem serialize_property_errorOnUnknown (tc : TryConvert)
    (hashFn : List Nat → List Nat) (cn : String) (st : EmitState) (p : String)
    (v : Variant) (hbeh : st.options.property_behavior = .errorOnUnknown)
    (hfind : st.options.database cn p = none) :
    serialize_property tc hashFn cn st p v =
      .err (.unknownProperty cn p) := by
  simp [serialize_property, EncodeOptions.use_reflection, hbeh, hfind]

/-- Resolved property whose value fails to convert: the structured
`UnsupportedPropertyConversion` error with class, property, expected type,
actual type and reason. -/
theorem serialize_property_conversion_error (tc : TryConvert)
    (hashFn : List Nat → List Nat) (cn : String) (st : EmitState) (p : String)
    (v : Variant) (sd : PropertyDescriptor) (msg : String)
    (hrefl : st.options.use_reflection = true)
    (hfind : st.options.database cn p = some sd)
    (hconv : tc v (descriptorDataType sd) = .error msg) :
    serialize_property tc hashFn cn st p v =
      .err (.unsupportedPropertyConversion cn p (descriptorDataType sd)
        v.ty msg) := by
  simp [serialize_property, hrefl, hfind, hconv]

/-- Resolved property with a migration that succeeds: emitted under the
migration's target name with the migrated value. -/
theorem serialize_property_migrate_ok (tc : TryConvert)
    (hashFn : List Nat → List Nat) (cn : String) (st : EmitState) (p : String)
    (v conv nv : Variant) (sd : PropertyDescriptor) (m : Migration)
    (hrefl : st.options.use_reflection = true)
    (hfind : st.options.database cn p = some sd)
    (hconv : tc v (descriptorDataType sd) = .ok conv)
    (hkind : sd.kind = .canonical (.migrate m))
    (hm : m.perform conv = .ok nv) :
    serialize_property tc hashFn cn st p v =
      .ok (write_value_xml hashFn st m.new_property_name nv) := by
  simp [serialize_property, hrefl, hfind, hconv, hkind, hm]

/-- Resolved property with a migration that fails: the coerced value is
emitted under the descriptor's serialized name and the call succeeds. -/
theorem serialize_property_migrate_failed (tc : TryConvert)
    (hashFn : List Nat → List Nat) (cn : String) (st : EmitState) (p : String)
    (v conv : Variant) (sd : PropertyDescriptor) (m : Migration) (u : Unit)
    (hrefl : st.options.use_reflection = true)
    (hfind : st.options.database cn p = some sd)
    (hconv : tc v (descriptorDataType sd) = .ok conv)
    (hkind : sd.kind = .canonical (.migrate m))
    (hm : m.perform conv = .error u) :
    serialize_property tc hashFn cn st p v =
      .ok (write_value_xml hashFn st sd.name conv) := by
  simp [serialize_property, hrefl, hfind, hconv, hkind, hm]

/-! ### The property loop -/

/-- `serialize_properties` over an appended list processes the first part,
then resumes on the second from the reached state; a failure in the first
part is the failure of the whole. -/
theorem serialize_properties_append (tc : TryConvert)
    (hashFn : List Nat → List Nat) (cn : String) (st : EmitState)
    (l1 l2 : List (String × Variant)) :
    serialize_properties tc hashFn cn st (l1 ++ l2) =
      match serialize_properties tc hashFn cn st l1 with
      | .ok (st', evs) =>
        match serialize_properties tc hashFn cn st' l2 with
        | .ok (st'', evs') => .ok (st'', evs ++ evs')
        | .err e => .err e
        | .panicked => .panicked
        | .outOfFuel => .outOfFuel
      | .err e => .err e
      | .panicked => .panicked
      | .outOfFuel => .outOfFuel := by
  induction l1 generalizing st with
  | nil =>
    simp only [List.nil_append, serialize_properties]
    cases serialize_properties tc hashFn cn st l2 with
    | ok a => obtain ⟨st2, evs2⟩ := a; simp
    | err e => simp
    | panicked => simp
    | outOfFuel => simp
  | cons hd tl ih =>
    obtain ⟨p, v⟩ := hd
    simp only [List.cons_append, serialize_properties]
    cases serialize_property tc hashFn cn st p v with
    | ok a =>
      obtain ⟨st1, evs1⟩ := a
      dsimp only [List.append_eq]
      rw [ih st1]
      cases serialize_properties tc hashFn cn st1 tl with
      | ok b =>
        obtain ⟨st2, evs2⟩ := b
        dsimp only
        cases serialize_properties tc hashFn cn st2 l2 with
        | ok c => obtain ⟨st3, evs3⟩ := c; simp
        | err e => simp
        | panicked => simp
        | outOfFuel => simp
      | err e => simp
      | panicked => simp
      | outOfFuel => simp
    | err e => simp
    | panicked => simp
    | outOfFuel => simp

/-- A successful property loop leaves options and referent fields of the
state unchanged. -/
theorem serialize_properties_state (tc : TryConvert)
    (hashFn : List Nat → List Nat) (cn : String) (st st' : EmitState)
    (l : List (String × Variant)) (evs : List XmlEvent)
    (h : serialize_properties tc hashFn cn st l = .ok (st', evs)) :
    st'.options = st.options ∧ st'.referent_map = st.referent_map ∧
    st'.next_referent = st.next_referent := by
  induction l generalizing st evs with
  | nil =>
    simp only [serialize_properties, Res.ok.injEq, Prod.mk.injEq] at h
    obtain ⟨h1, _⟩ := h
    subst h1
    exact ⟨rfl, rfl, rfl⟩
  | cons hd tl ih =>
    obtain ⟨p, v⟩ := hd
    simp only [serialize_properties] at h
    cases hp : serialize_property tc hashFn cn st p v with
    | ok a =>
      obtain ⟨st1, evs1⟩ := a
      rw [hp] at h
      dsimp only at h
      cases hrest : serialize_properties tc hashFn cn st1 tl with
      | ok b =>
        obtain ⟨st2, evs2⟩ := b
        rw [hrest] at h
        simp only [Res.ok.injEq, Prod.mk.injEq] at h
        obtain ⟨h1, _⟩ := h
        subst h1
        obtain ⟨o1, r1, n1⟩ := serialize_property_state tc hashFn cn st st1 p v evs1 hp
        obtain ⟨o2, r2, n2⟩ := ih st1 evs2 hrest
        exact ⟨o2.trans o1, r2.trans r1, n2.trans n1⟩
      | err e => rw [hrest] at h; exact absurd h (by simp)
      | panicked => rw [hrest] at h; exact absurd h (by simp)
      | outOfFuel => rw [hrest] at h; exact absurd h (by simp)
    | err e => rw [hp] at h; exact absurd h (by simp)
    | panicked => rw [hp] at h; exact absurd h (by simp)
    | outOfFuel => rw [hp] at h; exact absurd h (by simp)

/-! ### The property sort -/

/-- The comparison is total. -/
theorem charsLe_total : ∀ x y : List Char, charsLe x y = true ∨ charsLe y x = true
  | [], _ => Or.inl rfl
  | _ :: _, [] => Or.inr rfl
  | a :: as, b :: bs => by
    rcases Nat.lt_trichotomy a.toNat b.toNat with h | h | h
    · left; simp [charsLe, h]
    · have hne : ¬ a.toNat < b.toNat := by omega
      have hne2 : ¬ b.toNat < a.toNat := by omega
      rcases charsLe_total as bs with ih | ih
      · left; simp [charsLe, hne, hne2, ih]
      · right; simp [charsLe, hne, hne2, ih]
    · right; simp [charsLe, h]

/-- The comparison is transitive. -/
theorem charsLe_trans : ∀ x y z : List Char,
    charsLe x y = true → charsLe y z = true → charsLe x z = true
  | [], _, _, _, _ => rfl
  | _ :: _, [], _, h1, _ => absurd h1 (by simp [charsLe])
  | _ :: _, _ :: _, [], _, h2 => absurd h2 (by simp [charsLe])
  | a :: as, b :: bs, c :: cs, h1, h2 => by
    simp only [charsLe] at h1 h2 ⊢
    split_ifs at h1 h2 ⊢ <;>
      first
      | rfl
      | (exact charsLe_trans as bs cs h1 h2)
      | (exfalso; omega)

/-- The comparison is antisymmetric. -/
theorem charsLe_antisymm : ∀ x y : List Char,
    charsLe x y = true → charsLe y x = true → x = y
  | [], [], _, _ => rfl
  | [], _ :: _, _, h2 => absurd h2 (by simp [charsLe])
  | _ :: _, [], h1, _ => absurd h1 (by simp [charsLe])
  | a :: as, b :: bs, h1, h2 => by
    rcases Nat.lt_trichotomy a.toNat b.toNat with h | h | h
    · have hba : ¬ b.toNat < a.toNat := by omega
      simp [charsLe, h, hba] at h2
    · have hab : a = b := Char.ext (UInt32.ext h)
      subst hab
      simp only [charsLe, lt_self_iff_false, if_false] at h1 h2
      rw [charsLe_antisymm as bs h1 h2]
    · have hab : ¬ a.toNat < b.toNat := by omega
      simp [charsLe, h, hab] at h1

/-- Strings with equal character lists are equal. -/
theorem string_ext_of_toList (a b : String) (h : a.toList = b.toList) : a = b := by
  cases a
  cases b
  simp only [String.toList] at h
  rw [h]

/-- `sLe` is antisymmetric. -/
theorem sLe_antisymm (a b : String) (h1 : sLe a b = true) (h2 : sLe b a = true) :
    a = b :=
  string_ext_of_toList a b (charsLe_antisymm a.toList b.toList h1 h2)

instance : IsTotal (String × Variant) (fun a b => sLe a.1 b.1 = true) :=
  ⟨fun a b => charsLe_total a.1.toList b.1.toList⟩

instance : IsTrans (String × Variant) (fun a b => sLe a.1 b.1 = true) :=
  ⟨fun a b c h1 h2 => charsLe_trans a.1.toList b.1.toList c.1.toList h1 h2⟩

instance : IsAntisymm (String × Variant)
    (fun a b => sLe a.1 b.1 = true ∧ a.1 ≠ b.1) :=
  ⟨fun a b h1 h2 => absurd (sLe_antisymm a.1 b.1 h1.1 h2.1) h1.2⟩

/-- The sorted property buffer is a permutation of the stored properties:
sorting drops or duplicates nothing. -/
theorem sortProps_perm (l : List (String × Variant)) : (sortProps l).Perm l :=
  List.perm_insertionSort _ l

/-- The sorted property buffer is sorted by property name. -/
theorem sortProps_sorted (l : List (String × Variant)) :
    (sortProps l).Pairwise (fun a b => sLe a.1 b.1 = true) :=
  List.sorted_insertionSort _ l

/-- The names of the sorted property buffer are in ascending lexicographic
order. -/
theorem sortProps_names_sorted (l : List (String × Variant)) :
    ((sortProps l).map Prod.fst).Pairwise (fun a b => sLe a b = true) := by
  rw [List.pairwise_map]
  exact sortProps_sorted l

/-- Combining a weak sort with pairwise-distinct keys gives a strict
sort. -/
theorem pairwise_strict_of_le_of_ne {l : List (String × Variant)}
    (h1 : l.Pairwise (fun a b => sLe a.1 b.1 = true))
    (h2 : l.Pairwise (fun a b => a.1 ≠ b.1)) :
    l.Pairwise (fun a b => sLe a.1 b.1 = true ∧ a.1 ≠ b.1) := by
  induction l with
  | nil => exact List.Pairwise.nil
  | cons a t ih =>
    rw [List.pairwise_cons] at h1 h2 ⊢
    exact ⟨fun b hb => ⟨h1.1 b hb, h2.1 b hb⟩, ih h1.2 h2.2⟩

/-- Sorting is a normal form: two property maps that are permutations of
each other (same entries, any iteration order) with pairwise-distinct
property names sort to the same buffer. -/
theorem sortProps_eq_of_perm (l1 l2 : List (String × Variant))
    (h : l1.Perm l2) (hnd : (l1.map Prod.fst).Nodup) :
    sortProps l1 = sortProps l2 := by
  have hp : (sortProps l1).Perm (sortProps l2) :=
    (sortProps_perm l1).trans (h.trans (sortProps_perm l2).symm)
  have hnd1 : ((sortProps l1).map Prod.fst).Nodup :=
    ((sortProps_perm l1).map Prod.fst).nodup_iff.2 hnd
  have hnd2 : ((sortProps l2).map Prod.fst).Nodup :=
    ((sortProps_perm l2).map Prod.fst).nodup_iff.2 ((h.map Prod.fst).nodup_iff.1 hnd)
  have hs1 : (sortProps l1).Pairwise (fun a b => sLe a.1 b.1 = true ∧ a.1 ≠ b.1) :=
    pairwise_strict_of_le_of_ne (sortProps_sorted l1) (List.pairwise_map.mp hnd1)
  have hs2 : (sortProps l2).Pairwise (fun a b => sLe a.1 b.1 = true ∧ a.1 ≠ b.1) :=
    pairwise_strict_of_le_of_ne (sortProps_sorted l2) (List.pairwise_map.mp hnd2)
  exact List.eq_of_perm_of_sorted hp hs1 hs2

/-! ### Unfolding `serialize_instance` on the success path -/

/-- On the success path, one instance serializes to: the `Item` open tag
with class and referent, the `Properties` open tag, the synthetic `Name`
property, the events of the sorted property loop, the `Properties` close,
the children's events, and the `Item` close — in that order. -/
theorem serialize_instance_unfold (tc : TryConvert)
    (hashFn : List Nat → List Nat) (tree : WeakDom) (fuel : Nat)
    (st st3 st4 : EmitState) (id : Ref) (inst : Instance)
    (propEvs childEvs : List XmlEvent)
    (hinst : tree.getByRef id = some inst)
    (hprops : serialize_properties tc hashFn inst.className
      (write_value_xml hashFn (st.map_id id).2 "Name" (.str inst.name)).1
      (sortProps inst.properties) = .ok (st3, propEvs))
    (hkids : foldChildren (serialize_instance tc hashFn tree fuel) st3
      inst.children = .ok (st4, childEvs)) :
    serialize_instance tc hashFn tree (fuel + 1) st id =
      .ok (st4,
        XmlEvent.startElement "Item"
            [("class", inst.className), ("referent", toString (st.map_id id).1)] ::
          XmlEvent.startElement "Properties" [] ::
          XmlEvent.prop "Name" (.str inst.name) ::
          (propEvs ++ [XmlEvent.endElement] ++ childEvs ++ [XmlEvent.endElement])) := by
  simp only [serialize_instance, hinst]
  rw [show (write_value_xml hashFn (st.map_id id).2 "Name" (.str inst.name)) =
      ((st.map_id id).2, [XmlEvent.prop "Name" (.str inst.name)]) from rfl] at hprops ⊢
  rw [hprops]
  dsimp only
  rw [hkids]
  dsimp only
  simp

/-! ### Concrete material for witnesses -/

/-- A reflection database that resolves nothing. -/
def dbNone : Database := fun _ _ => none

/-- A conversion primitive that accepts every value unchanged. -/
def tcId : TryConvert := fun v _ => .ok v

/-- A conversion primitive that rejects every value. -/
def tcFail : TryConvert := fun _ _ => .error "no conversion"

/-- The identity content hash, for witnesses. -/
def hashId : List Nat → List Nat := fun l => l

/-- A trivial text encoding of byte lists, for witnesses. -/
def b64c : List Nat → String := fun _ => "blob"

/-- Encode options with the `WriteUnknown` policy and the empty database. -/
def optsWrite : EncodeOptions := ⟨.writeUnknown, dbNone⟩

/-- A sample instance with two unsorted properties. -/
def sampleInst : Instance :=
  ⟨"Folder", "Root", [("Zeta", .str "z"), ("Alpha", .str "a")], []⟩

/-- A one-node tree holding `sampleInst` at handle 0. -/
def sampleTree : WeakDom :=
  ⟨fun r => if r = 0 then some sampleInst else none⟩

/-! ### C1 -/

/-- C1: for every instance node encoded, the emitted properties block opens
with the synthetic `Name` property (the node's display name as a string),
before every stored property regardless of where `Name` would fall
alphabetically, and the stored properties are then processed by the
property loop in ascending lexicographic order of their property names:
the loop runs on `sortProps inst.properties`, whose name sequence is
sorted and which is a permutation of the stored properties. -/
theorem c1_sorted_emission_name_first (tc : TryConvert)
    (hashFn : List Nat → List Nat) (tree : WeakDom) (fuel : Nat)
    (st st3 st4 : EmitState) (id : Ref) (inst : Instance)
    (propEvs childEvs : List XmlEvent)
    (hinst : tree.getByRef id = some inst)
    (hprops : serialize_properties tc hashFn inst.className
      (write_value_xml hashFn (st.map_id id).2 "Name" (.str inst.name)).1
      (sortProps inst.properties) = .ok (st3, propEvs))
    (hkids : foldChildren (serialize_instance tc hashFn tree fuel) st3
      inst.children = .ok (st4, childEvs)) :
    serialize_instance tc hashFn tree (fuel + 1) st id =
      .ok (st4,
        XmlEvent.startElement "Item"
            [("class", inst.className), ("referent", toString (st.map_id id).1)] ::
          XmlEvent.startElement "Properties" [] ::
          XmlEvent.prop "Name" (.str inst.name) ::
          (propEvs ++ [XmlEvent.endElement] ++ childEvs ++ [XmlEvent.endElement])) ∧
    ((sortProps inst.properties).map Prod.fst).Pairwise (fun a b => sLe a b = true) ∧
    (sortProps inst.properties).Perm inst.properties :=
  ⟨serialize_instance_unfold tc hashFn tree fuel st st3 st4 id inst propEvs
      childEvs hinst hprops hkids,
    sortProps_names_sorted inst.properties,
    sortProps_perm inst.properties⟩

/-- The state reached after serializing `sampleInst` from a fresh
`WriteUnknown` state: handle 0 got referent 0 and nothing else changed. -/
def sampleStAfter : EmitState := ⟨optsWrite, [(0, 0)], 1, []⟩

/-- Witness for C1 on the concrete one-node tree: the hypotheses hold at
handle 0 and the properties block emits `Name` first, then `Alpha`, then
`Zeta`. -/
theorem c1_witness :
    sampleTree.getByRef 0 = some sampleInst ∧
    serialize_properties tcId hashId sampleInst.className
      (write_value_xml hashId ((EmitState.new optsWrite).map_id 0).2 "Name"
        (.str sampleInst.name)).1
      (sortProps sampleInst.properties) =
      .ok (sampleStAfter,
        [XmlEvent.prop "Alpha" (.str "a"), XmlEvent.prop "Zeta" (.str "z")]) ∧
    foldChildren (serialize_instance tcId hashId sampleTree 0) sampleStAfter
      sampleInst.children = .ok (sampleStAfter, []) ∧
    (serialize_instance tcId hashId sampleTree (0 + 1) (EmitState.new optsWrite) 0 =
      .ok (sampleStAfter,
        XmlEvent.startElement "Item"
            [("class", sampleInst.className),
              ("referent", toString (((EmitState.new optsWrite).map_id 0)).1)] ::
          XmlEvent.startElement "Properties" [] ::
          XmlEvent.prop "Name" (.str sampleInst.name) ::
          ([XmlEvent.prop "Alpha" (.str "a"), XmlEvent.prop "Zeta" (.str "z")] ++
            [XmlEvent.endElement] ++ [] ++ [XmlEvent.endElement])) ∧
      ((sortProps sampleInst.properties).map Prod.fst).Pairwise
        (fun a b => sLe a b = true) ∧
      (sortProps sampleInst.properties).Perm sampleInst.properties) :=
  ⟨rfl, rfl, rfl,
    c1_sorted_emission_name_first tcId hashId sampleTree 0
      (EmitState.new optsWrite) sampleStAfter sampleStAfter 0 sampleInst
      [XmlEvent.prop "Alpha" (.str "a"), XmlEvent.prop "Zeta" (.str "z")] []
      rfl rfl rfl⟩

/-! ### C3: the unknown-property policy matrix -/

/-- C3: for a property the database does not resolve, `IgnoreUnknown` omits
it entirely (no event, state unchanged), `WriteUnknown` emits it with its
stored name and value, `ErrorOnUnknown` aborts with `UnknownProperty`
carrying the class and property names; and under `NoReflection` no schema
lookup is performed at all — for any state (hence any database) every
property is emitted exactly as stored. -/
theorem c3_policy_matrix (tc : TryConvert) (hashFn : List Nat → List Nat)
    (cn : String) (st : EmitState) (p : String) (v : Variant)
    (hnone : st.options.database cn p = none) :
    (st.options.property_behavior = .ignoreUnknown →
      serialize_property tc hashFn cn st p v = .ok (st, [])) ∧
    (st.options.property_behavior = .writeUnknown →
      serialize_property tc hashFn cn st p v =
        .ok ((write_value_xml hashFn st p v).1, [.prop p v])) ∧
    (st.options.property_behavior = .errorOnUnknown →
      serialize_property tc hashFn cn st p v =
        .err (.unknownProperty cn p)) ∧
    (∀ st' : EmitState, st'.options.property_behavior = .noReflection →
      serialize_property tc hashFn cn st' p v =
        .ok ((write_value_xml hashFn st' p v).1, [.prop p v])) := by
  refine ⟨?_, ?_, ?_, ?_⟩
  · intro hbeh
    exact serialize_property_ignore tc hashFn cn st p v hbeh hnone
  · intro hbeh
    rw [serialize_property_writeUnknown tc hashFn cn st p v hbeh hnone]
    rw [show write_value_xml hashFn st p v =
      ((write_value_xml hashFn st p v).1, (write_value_xml hashFn st p v).2) from rfl]
    rw [write_value_xml_events]
  · intro hbeh
    exact serialize_property_errorOnUnknown tc hashFn cn st p v hbeh hnone
  · intro st' hbeh
    rw [serialize_property_noReflection tc hashFn cn st' p v hbeh]
    rw [show write_value_xml hashFn st' p v =
      ((write_value_xml hashFn st' p v).1, (write_value_xml hashFn st' p v).2) from rfl]
    rw [write_value_xml_events]

/-- Witness for C3 at a concrete fresh `IgnoreUnknown` state and the empty
database: the hypothesis holds and the policy matrix follows. -/
theorem c3_witness :
    (EmitState.new ⟨.ignoreUnknown, dbNone⟩).options.database "Folder" "P" = none ∧
    (((EmitState.new ⟨.ignoreUnknown, dbNone⟩).options.property_behavior = .ignoreUnknown →
      serialize_property tcId hashId "Folder" (EmitState.new ⟨.ignoreUnknown, dbNone⟩)
        "P" (.str "x") = .ok (EmitState.new ⟨.ignoreUnknown, dbNone⟩, [])) ∧
    ((EmitState.new ⟨.ignoreUnknown, dbNone⟩).options.property_behavior = .writeUnknown →
      serialize_property tcId hashId "Folder" (EmitState.new ⟨.ignoreUnknown, dbNone⟩)
        "P" (.str "x") =
        .ok ((write_value_xml hashId (EmitState.new ⟨.ignoreUnknown, dbNone⟩) "P"
          (.str "x")).1, [.prop "P" (.str "x")])) ∧
    ((EmitState.new ⟨.ignoreUnknown, dbNone⟩).options.property_behavior = .errorOnUnknown →
      serialize_property tcId hashId "Folder" (EmitState.new ⟨.ignoreUnknown, dbNone⟩)
        "P" (.str "x") = .err (.unknownProperty "Folder" "P")) ∧
    (∀ st' : EmitState, st'.options.property_behavior = .noReflection →
      serialize_property tcId hashId "Folder" st' "P" (.str "x") =
        .ok ((write_value_xml hashId st' "P" (.str "x")).1,
          [.prop "P" (.str "x")]))) :=
  ⟨rfl, c3_policy_matrix tcId hashId "Folder"
    (EmitState.new ⟨.ignoreUnknown, dbNone⟩) "P" (.str "x") rfl⟩

/-! ### Error propagation helpers -/

/-- An error from the property loop is the result of the whole instance
serialization. -/
theorem serialize_instance_err_of_properties (tc : TryConvert)
    (hashFn : List Nat → List Nat) (tree : WeakDom) (fuel : Nat)
    (st : EmitState) (id : Ref) (inst : Instance) (e : EncodeErrorKind)
    (hinst : tree.getByRef id = some inst)
    (hprops : serialize_properties tc hashFn inst.className
      (write_value_xml hashFn (st.map_id id).2 "Name" (.str inst.name)).1
      (sortProps inst.properties) = .err e) :
    serialize_instance tc hashFn tree (fuel + 1) st id = .err e := by
  simp only [serialize_instance, hinst]
  rw [hprops]

/-- `foldChildren` over an appended list runs the first part, then resumes
on the second from the reached state; a failure in the first part is the
failure of the whole. -/
theorem foldChildren_append
    (f : EmitState → Ref → Res (EmitState × List XmlEvent)) (st : EmitState)
    (l1 l2 : List Ref) :
    foldChildren f st (l1 ++ l2) =
      match foldChildren f st l1 with
      | .ok (st', evs) =>
        match foldChildren f st' l2 with
        | .ok (st'', evs') => .ok (st'', evs ++ evs')
        | .err e => .err e
        | .panicked => .panicked
        | .outOfFuel => .outOfFuel
      | .err e => .err e
      | .panicked => .panicked
      | .outOfFuel => .outOfFuel := by
  induction l1 generalizing st with
  | nil =>
    simp only [List.nil_append, foldChildren]
    cases foldChildren f st l2 with
    | ok a => obtain ⟨st2, evs2⟩ := a; simp
    | err e => simp
    | panicked => simp
    | outOfFuel => simp
  | cons hd tl ih =>
    simp only [List.cons_append, foldChildren]
    cases f st hd with
    | ok a =>
      obtain ⟨st1, evs1⟩ := a
      dsimp only [List.append_eq]
      rw [ih st1]
      cases foldChildren f st1 tl with
      | ok b =>
        obtain ⟨st2, evs2⟩ := b
        dsimp only
        cases foldChildren f st2 l2 with
        | ok c => obtain ⟨st3, evs3⟩ := c; simp
        | err e => simp
        | panicked => simp
        | outOfFuel => simp
      | err e => simp
      | panicked => simp
      | outOfFuel => simp
    | err e => simp
    | panicked => simp
    | outOfFuel => simp

/-- An error while serializing the top-level list is the result of the
whole encode call. -/
theorem encode_internal_err (tc : TryConvert) (hashFn : List Nat → List Nat)
    (base64 : List Nat → String) (tree : WeakDom) (ids : List Ref)
    (options : EncodeOptions) (fuel : Nat) (e : EncodeErrorKind)
    (h : foldChildren (serialize_instance tc hashFn tree fuel)
      (EmitState.new options) ids = .err e) :
    encode_internal tc hashFn base64 tree ids options fuel = .err e := by
  simp only [encode_internal, h]

/-! ### C4: conversion failure aborts with the structured error -/

/-- C4: a resolved property whose stored value does not convert to the
descriptor's declared type yields an `UnsupportedPropertyConversion` error
carrying the class name, property name, expected type, actual type and
reason; a property loop reaching that property after a successful prefix
returns exactly that error (the failure is never skipped); an erring
property loop aborts its instance, and an erring top-level loop aborts the
whole encode call with the same error. -/
theorem c4_conversion_failure_aborts (tc : TryConvert)
    (hashFn : List Nat → List Nat) (cn : String) (st : EmitState) (p : String)
    (v : Variant) (sd : PropertyDescriptor) (msg : String)
    (hrefl : st.options.use_reflection = true)
    (hfind : st.options.database cn p = some sd)
    (hconv : tc v (descriptorDataType sd) = .error msg) :
    serialize_property tc hashFn cn st p v =
      .err (.unsupportedPropertyConversion cn p (descriptorDataType sd)
        v.ty msg) ∧
    (∀ (pre post : List (String × Variant)) (st0 : EmitState)
        (evs0 : List XmlEvent),
      serialize_properties tc hashFn cn st0 pre = .ok (st, evs0) →
      serialize_properties tc hashFn cn st0 (pre ++ (p, v) :: post) =
        .err (.unsupportedPropertyConversion cn p (descriptorDataType sd)
          v.ty msg)) ∧
    (∀ (tree : WeakDom) (fuel : Nat) (st1 : EmitState) (id : Ref)
        (inst : Instance) (e : EncodeErrorKind),
      tree.getByRef id = some inst →
      serialize_properties tc hashFn inst.className
        (write_value_xml hashFn (st1.map_id id).2 "Name" (.str inst.name)).1
        (sortProps inst.properties) = .err e →
      serialize_instance tc hashFn tree (fuel + 1) st1 id = .err e) ∧
    (∀ (base64 : List Nat → String) (tree : WeakDom) (ids : List Ref)
        (options : EncodeOptions) (fuel : Nat) (e : EncodeErrorKind),
      foldChildren (serialize_instance tc hashFn tree fuel)
        (EmitState.new options) ids = .err e →
      encode_internal tc hashFn base64 tree ids options fuel = .err e) := by
  have h1 : serialize_property tc hashFn cn st p v =
      .err (.unsupportedPropertyConversion cn p (descriptorDataType sd)
        v.ty msg) :=
    serialize_property_conversion_error tc hashFn cn st p v sd msg hrefl
      hfind hconv
  refine ⟨h1, ?_, ?_, ?_⟩
  · intro pre post st0 evs0 hpre
    rw [serialize_properties_append, hpre]
    dsimp only
    simp only [serialize_properties, h1]
  · intro tree fuel st1 id inst e hinst hprops
    exact serialize_instance_err_of_properties tc hashFn tree fuel st1 id
      inst e hinst hprops
  · intro base64 tree ids options fuel e h
    exact encode_internal_err tc hashFn base64 tree ids options fuel e h

/-- A descriptor with no migration, resolving to a string type, for
witnesses. -/
def sdPlain : PropertyDescriptor := ⟨"P", .value .str, .canonical .serializes⟩

/-- A database resolving every property to `sdPlain`. -/
def dbPlain : Database := fun _ _ => some sdPlain

/-- Witness for C4: with the always-failing conversion and a database that
resolves the property, the structured conversion error is produced and
propagated. -/
theorem c4_witness :
    (EmitState.new ⟨.ignoreUnknown, dbPlain⟩).options.use_reflection = true ∧
    (EmitState.new ⟨.ignoreUnknown, dbPlain⟩).options.database "Part" "P" =
      some sdPlain ∧
    tcFail (.int64 7) (descriptorDataType sdPlain) = .error "no conversion" ∧
    serialize_property tcFail hashId "Part"
      (EmitState.new ⟨.ignoreUnknown, dbPlain⟩) "P" (.int64 7) =
      .err (.unsupportedPropertyConversion "Part" "P"
        (descriptorDataType sdPlain) (Variant.int64 7).ty "no conversion") :=
  ⟨rfl, rfl, rfl,
    (c4_conversion_failure_aborts tcFail hashId "Part"
      (EmitState.new ⟨.ignoreUnknown, dbPlain⟩) "P" (.int64 7) sdPlain
      "no conversion" rfl rfl rfl).1⟩

/-! ### C5: property migrations -/

/-- C5: for a resolved descriptor carrying a migration, if the migration
succeeds on the coerced value the property is emitted as a single entry
under the migration's target name with the migrated value — in particular
no entry under the descriptor's (legacy) serialized name is produced when
the two names differ; if the migration fails, the coerced value is emitted
under the descriptor's serialized name and the call still succeeds. -/
theorem c5_migration_rewrite (tc : TryConvert) (hashFn : List Nat → List Nat)
    (cn : String) (st : EmitState) (p : String) (v conv : Variant)
    (sd : PropertyDescriptor) (m : Migration)
    (hrefl : st.options.use_reflection = true)
    (hfind : st.options.database cn p = some sd)
    (hconv : tc v (descriptorDataType sd) = .ok conv)
    (hkind : sd.kind = .canonical (.migrate m)) :
    (∀ nv, m.perform conv = .ok nv →
      serialize_property tc hashFn cn st p v =
        .ok ((write_value_xml hashFn st m.new_property_name nv).1,
          [.prop m.new_property_name nv]) ∧
      (sd.name ≠ m.new_property_name → ∀ val : Variant,
        XmlEvent.prop sd.name val ∉
          (write_value_xml hashFn st m.new_property_name nv).2)) ∧
    (∀ u : Unit, m.perform conv = .error u →
      serialize_property tc hashFn cn st p v =
        .ok ((write_value_xml hashFn st sd.name conv).1,
          [.prop sd.name conv])) := by
  constructor
  · intro nv hm
    constructor
    · rw [serialize_property_migrate_ok tc hashFn cn st p v conv nv sd m hrefl
        hfind hconv hkind hm]
      rw [show write_value_xml hashFn st m.new_property_name nv =
        ((write_value_xml hashFn st m.new_property_name nv).1,
          (write_value_xml hashFn st m.new_property_name nv).2) from rfl]
      rw [write_value_xml_events]
    · intro hne val
      rw [write_value_xml_events]
      intro hmem
      rw [List.mem_singleton] at hmem
      injection hmem with hname hval
      exact hne hname
  · intro u hm
    rw [serialize_property_migrate_failed tc hashFn cn st p v conv sd m u hrefl
      hfind hconv hkind hm]
    rw [show write_value_xml hashFn st sd.name conv =
      ((write_value_xml hashFn st sd.name conv).1,
        (write_value_xml hashFn st sd.name conv).2) from rfl]
    rw [write_value_xml_events]

/-- A migration from legacy name `P` to target `Color3uint8`, for the
witness: it rewrites every value to the string "migrated". -/
def migC : Migration := ⟨"Color3uint8", fun _ => .ok (.str "migrated")⟩

/-- A descriptor whose kind carries `migC`. -/
def sdMig : PropertyDescriptor := ⟨"OldColor", .value .str, .canonical (.migrate migC)⟩

/-- A database resolving every property to `sdMig`. -/
def dbMig : Database := fun _ _ => some sdMig

/-- Witness for C5: the migrating descriptor rewrites the property to the
target name with the migrated value. -/
theorem c5_witness :
    (EmitState.new ⟨.ignoreUnknown, dbMig⟩).options.use_reflection = true ∧
    (EmitState.new ⟨.ignoreUnknown, dbMig⟩).options.database "Part" "OldColor" =
      some sdMig ∧
    tcId (.str "red") (descriptorDataType sdMig) = .ok (.str "red") ∧
    sdMig.kind = .canonical (.migrate migC) ∧
    ((∀ nv, migC.perform (.str "red") = .ok nv →
      serialize_property tcId hashId "Part" (EmitState.new ⟨.ignoreUnknown, dbMig⟩)
        "OldColor" (.str "red") =
        .ok ((write_value_xml hashId (EmitState.new ⟨.ignoreUnknown, dbMig⟩)
          migC.new_property_name nv).1, [.prop migC.new_property_name nv]) ∧
      (sdMig.name ≠ migC.new_property_name → ∀ val : Variant,
        XmlEvent.prop sdMig.name val ∉
          (write_value_xml hashId (EmitState.new ⟨.ignoreUnknown, dbMig⟩)
            migC.new_property_name nv).2)) ∧
    (∀ u : Unit, migC.perform (.str "red") = .error u →
      serialize_property tcId hashId "Part" (EmitState.new ⟨.ignoreUnknown, dbMig⟩)
        "OldColor" (.str "red") =
        .ok ((write_value_xml hashId (EmitState.new ⟨.ignoreUnknown, dbMig⟩)
          sdMig.name (.str "red")).1, [.prop sdMig.name (.str "red")]))) :=
  ⟨rfl, rfl, rfl, rfl,
    c5_migration_rewrite tcId hashId "Part"
      (EmitState.new ⟨.ignoreUnknown, dbMig⟩) "OldColor" (.str "red")
      (.str "red") sdMig migC rfl rfl rfl rfl⟩

/-! ### C8: UTF-8 decoding failure of the completed stream -/

/-- C8: when the encode itself succeeds but the produced byte stream is not
valid UTF-8, `to_string` returns an error carrying the underlying decoding
diagnostic, never a silently repaired string. -/
theorem c8_text_decoding_failure (tc : TryConvert)
    (hashFn : List Nat → List Nat) (base64 : List Nat → String)
    (render : List XmlEvent → List Nat)
    (fromUtf8 : List Nat → Except String String) (tree : WeakDom)
    (ids : List Ref) (options : EncodeOptions) (fuel : Nat) (st : EmitState)
    (evs : List XmlEvent) (d : String)
    (henc : encode_internal tc hashFn base64 tree ids options fuel =
      .ok (st, evs))
    (hdec : fromUtf8 (render evs) = .error d) :
    to_string tc hashFn base64 render fromUtf8 tree ids options fuel =
      .err (.custom ("UTF-8 conversion error: " ++ d)) := by
  simp only [to_string, henc, hdec]

/-- A decoder that rejects every byte stream, for the witness. -/
def utf8Bad : List Nat → Except String String :=
  fun _ => .error "invalid utf-8 sequence"

/-- A byte rendering of events, for the witness. -/
def renderNil : List XmlEvent → List Nat := fun _ => []

/-- Witness for C8: encoding the empty top-level list succeeds, the
rejecting decoder fails, and `to_string` surfaces the diagnostic. -/
theorem c8_witness :
    encode_internal tcId hashId b64c sampleTree [] ⟨.ignoreUnknown, dbNone⟩ 1 =
      .ok (EmitState.new ⟨.ignoreUnknown, dbNone⟩,
        [XmlEvent.startElement "roblox" [("version", "4")], XmlEvent.endElement]) ∧
    utf8Bad (renderNil
      [XmlEvent.startElement "roblox" [("version", "4")], XmlEvent.endElement]) =
      .error "invalid utf-8 sequence" ∧
    to_string tcId hashId b64c renderNil utf8Bad sampleTree []
      ⟨.ignoreUnknown, dbNone⟩ 1 =
      .err (.custom ("UTF-8 conversion error: " ++ "invalid utf-8 sequence")) :=
  ⟨rfl, rfl,
    c8_text_decoding_failure tcId hashId b64c renderNil utf8Bad sampleTree []
      ⟨.ignoreUnknown, dbNone⟩ 1 (EmitState.new ⟨.ignoreUnknown, dbNone⟩)
      [XmlEvent.startElement "roblox" [("version", "4")], XmlEvent.endElement]
      "invalid utf-8 sequence" rfl rfl⟩

/-! ### C10: a stored property literally named "Name" -/

/-- `map_id` does not change the options. -/
theorem map_id_options (st : EmitState) (id : Ref) :
    (st.map_id id).2.options = st.options := by
  unfold EmitState.map_id
  cases lk st.referent_map id <;> rfl

/-- Under `WriteUnknown` with an unresolved name, or under `NoReflection`,
a stored entry `(p, v)` of the processed list contributes the event
`prop p v` to a successful property loop's output. -/
theorem mem_prop_event_of_passthrough (tc : TryConvert)
    (hashFn : List Nat → List Nat) (cn p : String) :
    ∀ (l : List (String × Variant)) (st st' : EmitState)
      (evs : List XmlEvent) (v : Variant),
    ((st.options.property_behavior = .writeUnknown ∧
        st.options.database cn p = none) ∨
      st.options.property_behavior = .noReflection) →
    (p, v) ∈ l →
    serialize_properties tc hashFn cn st l = .ok (st', evs) →
    XmlEvent.prop p v ∈ evs := by
  intro l
  induction l with
  | nil => intro st st' evs v _ hmem _; cases hmem
  | cons hd tl ih =>
    intro st st' evs v hpol hmem h
    obtain ⟨q, w⟩ := hd
    simp only [serialize_properties] at h
    cases hp : serialize_property tc hashFn cn st q w with
    | ok a =>
      obtain ⟨st1, evs1⟩ := a
      rw [hp] at h
      dsimp only at h
      cases hrest : serialize_properties tc hashFn cn st1 tl with
      | ok b =>
        obtain ⟨st2, evs2⟩ := b
        rw [hrest] at h
        simp only [Res.ok.injEq, Prod.mk.injEq] at h
        obtain ⟨h1, h2⟩ := h
        subst h2
        rcases List.mem_cons.mp hmem with hhd | htl
        · -- the entry is the head: its own events contain the entry
          have hqw : q = p ∧ w = v := by
            have := hhd.symm
            exact ⟨congrArg Prod.fst this, congrArg Prod.snd this⟩
          obtain ⟨hq, hw⟩ := hqw
          subst hq
          subst hw
          have hev : evs1 = [XmlEvent.prop q w] := by
            rcases hpol with ⟨hb, hn⟩ | hb
            · rw [serialize_property_writeUnknown tc hashFn cn st q w hb hn]
                at hp
              simp only [Res.ok.injEq] at hp
              exact (congrArg Prod.snd hp).symm.trans
                (write_value_xml_events hashFn st q w)
            · rw [serialize_property_noReflection tc hashFn cn st q w hb] at hp
              simp only [Res.ok.injEq] at hp
              exact (congrArg Prod.snd hp).symm.trans
                (write_value_xml_events hashFn st q w)
          rw [hev]
          exact List.mem_append_left evs2 (List.mem_singleton.mpr rfl)
        · -- the entry is in the tail: options are preserved, recurse
          have hopts : st1.options = st.options :=
            (serialize_property_state tc hashFn cn st st1 q w evs1 hp).1
          have hpol1 : ((st1.options.property_behavior = .writeUnknown ∧
              st1.options.database cn p = none) ∨
            st1.options.property_behavior = .noReflection) := by
            rw [hopts]; exact hpol
          exact List.mem_append_right evs1 (ih st1 st2 evs2 v hpol1 htl hrest)
      | err e => rw [hrest] at h; exact absurd h (by simp)
      | panicked => rw [hrest] at h; exact absurd h (by simp)
      | outOfFuel => rw [hrest] at h; exact absurd h (by simp)
    | err e => rw [hp] at h; exact absurd h (by simp)
    | panicked => rw [hp] at h; exact absurd h (by simp)
    | outOfFuel => rw [hp] at h; exact absurd h (by simp)

/-- C10: a stored property literally named "Name" is not deduplicated
against the synthetic Name entry: the synthetic entry (holding the display
name) opens the properties block, and the stored entry is processed by the
normal path, so under `WriteUnknown` (with "Name" unresolved) or
`NoReflection` the block also contains the stored `Name` entry — two Name
entries in total. -/
theorem c10_two_name_entries (tc : TryConvert) (hashFn : List Nat → List Nat)
    (tree : WeakDom) (fuel : Nat) (st st3 st4 : EmitState) (id : Ref)
    (inst : Instance) (propEvs childEvs : List XmlEvent) (v : Variant)
    (hv : ("Name", v) ∈ inst.properties)
    (hpol : ((st.options.property_behavior = .writeUnknown ∧
        st.options.database inst.className "Name" = none) ∨
      st.options.property_behavior = .noReflection))
    (hinst : tree.getByRef id = some inst)
    (hprops : serialize_properties tc hashFn inst.className
      (write_value_xml hashFn (st.map_id id).2 "Name" (.str inst.name)).1
      (sortProps inst.properties) = .ok (st3, propEvs))
    (hkids : foldChildren (serialize_instance tc hashFn tree fuel) st3
      inst.children = .ok (st4, childEvs)) :
    serialize_instance tc hashFn tree (fuel + 1) st id =
      .ok (st4,
        XmlEvent.startElement "Item"
            [("class", inst.className), ("referent", toString (st.map_id id).1)] ::
          XmlEvent.startElement "Properties" [] ::
          XmlEvent.prop "Name" (.str inst.name) ::
          (propEvs ++ [XmlEvent.endElement] ++ childEvs ++ [XmlEvent.endElement])) ∧
    XmlEvent.prop "Name" v ∈ propEvs := by
  constructor
  · exact serialize_instance_unfold tc hashFn tree fuel st st3 st4 id inst
      propEvs childEvs hinst hprops hkids
  · have hopts : ((write_value_xml hashFn (st.map_id id).2 "Name"
        (.str inst.name)).1).options = st.options := by
      rw [(write_value_xml_state hashFn (st.map_id id).2 "Name"
        (.str inst.name)).1]
      exact map_id_options st id
    have hpol' : (((write_value_xml hashFn (st.map_id id).2 "Name"
        (.str inst.name)).1).options.property_behavior = .writeUnknown ∧
        ((write_value_xml hashFn (st.map_id id).2 "Name"
          (.str inst.name)).1).options.database inst.className "Name" = none) ∨
        ((write_value_xml hashFn (st.map_id id).2 "Name"
          (.str inst.name)).1).options.property_behavior = .noReflection := by
      rw [hopts]; exact hpol
    have hvs : ("Name", v) ∈ sortProps inst.properties :=
      ((sortProps_perm inst.properties).mem_iff).mpr hv
    exact mem_prop_event_of_passthrough tc hashFn inst.className "Name"
      (sortProps inst.properties) _ st3 propEvs v hpol' hvs hprops

/-- A node whose stored property map itself contains a "Name" entry. -/
def instN : Instance := ⟨"Folder", "Display", [("Name", .str "stored")], []⟩

/-- A one-node tree holding `instN` at handle 0. -/
def treeN : WeakDom := ⟨fun r => if r = 0 then some instN else none⟩

/-- Witness for C10: under `WriteUnknown` the block contains the synthetic
Name entry (value "Display") followed by the stored one (value "stored"). -/
theorem c10_witness :
    ("Name", Variant.str "stored") ∈ instN.properties ∧
    treeN.getByRef 0 = some instN ∧
    serialize_properties tcId hashId instN.className
      (write_value_xml hashId ((EmitState.new optsWrite).map_id 0).2 "Name"
        (.str instN.name)).1
      (sortProps instN.properties) =
      .ok (sampleStAfter, [XmlEvent.prop "Name" (.str "stored")]) ∧
    foldChildren (serialize_instance tcId hashId treeN 0) sampleStAfter
      instN.children = .ok (sampleStAfter, []) ∧
    (serialize_instance tcId hashId treeN (0 + 1) (EmitState.new optsWrite) 0 =
      .ok (sampleStAfter,
        XmlEvent.startElement "Item"
            [("class", instN.className),
              ("referent", toString (((EmitState.new optsWrite).map_id 0)).1)] ::
          XmlEvent.startElement "Properties" [] ::
          XmlEvent.prop "Name" (.str instN.name) ::
          ([XmlEvent.prop "Name" (.str "stored")] ++ [XmlEvent.endElement] ++
            [] ++ [XmlEvent.endElement])) ∧
      XmlEvent.prop "Name" (Variant.str "stored") ∈
        [XmlEvent.prop "Name" (.str "stored")]) :=
  ⟨List.mem_cons_self _ _, rfl, rfl, rfl,
    c10_two_name_entries tcId hashId treeN 0 (EmitState.new optsWrite)
      sampleStAfter sampleStAfter 0 instN
      [XmlEvent.prop "Name" (.str "stored")] [] (Variant.str "stored")
      (List.mem_cons_self _ _) (Or.inl ⟨rfl, rfl⟩) rfl rfl rfl⟩

/-! ### C6: the shared-string registry and its trailing block -/

/-- `bytesLt` is irreflexive. -/
theorem bytesLt_irrefl : ∀ x : List Nat, bytesLt x x = false
  | [] => rfl
  | a :: as => by simp [bytesLt, bytesLt_irrefl as]

/-- `bytesLt` is transitive. -/
theorem bytesLt_trans : ∀ x y z : List Nat,
    bytesLt x y = true → bytesLt y z = true → bytesLt x z = true
  | [], [], _, h1, _ => by simp [bytesLt] at h1
  | [], _ :: _, [], _, h2 => by simp [bytesLt] at h2
  | [], _ :: _, _ :: _, _, _ => rfl
  | _ :: _, [], _, h1, _ => by simp [bytesLt] at h1
  | _ :: _, _ :: _, [], _, h2 => by simp [bytesLt] at h2
  | a :: as, b :: bs, c :: cs, h1, h2 => by
    simp only [bytesLt] at h1 h2 ⊢
    split_ifs at h1 h2 ⊢ <;>
      first
      | rfl
      | (exact bytesLt_trans as bs cs h1 h2)
      | (exfalso; omega)

/-- `bytesLt` is connex: distinct lists compare one way or the other. -/
theorem bytesLt_connex : ∀ x y : List Nat,
    x ≠ y → bytesLt x y = true ∨ bytesLt y x = true
  | [], [], h => absurd rfl h
  | [], _ :: _, _ => Or.inl rfl
  | _ :: _, [], _ => Or.inr rfl
  | a :: as, b :: bs, h => by
    rcases Nat.lt_trichotomy a b with hlt | heq | hgt
    · left; simp [bytesLt, hlt]
    · subst heq
      have h' : as ≠ bs := fun hh => h (by rw [hh])
      rcases bytesLt_connex as bs h' with ih | ih
      · left; simp [bytesLt, ih]
      · right; simp [bytesLt, ih]
    · right; simp [bytesLt, hgt]

/-- Members of `btreeInsert` are the new pair or old members. -/
theorem mem_btreeInsert (k : List Nat) (v : SharedString) :
    ∀ (m : List (List Nat × SharedString)) (x : List Nat × SharedString),
    x ∈ btreeInsert k v m → x = (k, v) ∨ x ∈ m
  | [], x, hx => by
    simp only [btreeInsert, List.mem_singleton] at hx
    exact Or.inl hx
  | (k', v') :: rest, x, hx => by
    simp only [btreeInsert] at hx
    split_ifs at hx with h1 h2
    · rcases List.mem_cons.mp hx with h | h
      · exact Or.inl h
      · exact Or.inr h
    · rcases List.mem_cons.mp hx with h | h
      · exact Or.inl h
      · exact Or.inr (List.mem_cons_of_mem _ h)
    · rcases List.mem_cons.mp hx with h | h
      · exact Or.inr (h ▸ List.mem_cons_self _ _)
      · rcases mem_btreeInsert k v rest x h with h' | h'
        · exact Or.inl h'
        · exact Or.inr (List.mem_cons_of_mem _ h')

/-- The inserted pair is a member of the result. -/
theorem btreeInsert_self_mem (k : List Nat) (v : SharedString) :
    ∀ m : List (List Nat × SharedString), (k, v) ∈ btreeInsert k v m
  | [] => List.mem_singleton.mpr rfl
  | (k', v') :: rest => by
    simp only [btreeInsert]
    split_ifs with h1 h2
    · exact List.mem_cons_self _ _
    · exact List.mem_cons_self _ _
    · exact List.mem_cons_of_mem _ (btreeInsert_self_mem k v rest)

/-- Insertion preserves the presence of every key. -/
theorem btreeInsert_preserves_key (k k0 : List Nat) (v w : SharedString) :
    ∀ m : List (List Nat × SharedString), (k0, w) ∈ m →
    ∃ w', (k0, w') ∈ btreeInsert k v m
  | [], hm => absurd hm (List.not_mem_nil _)
  | (k', v') :: rest, hm => by
    simp only [btreeInsert]
    split_ifs with h1 h2
    · exact ⟨w, List.mem_cons_of_mem _ hm⟩
    · rcases List.mem_cons.mp hm with h | h
      · have hk : k0 = k := (congrArg Prod.fst h).trans h2.symm
        exact ⟨v, by rw [hk]; exact List.mem_cons_self _ _⟩
      · exact ⟨w, List.mem_cons_of_mem _ h⟩
    · rcases List.mem_cons.mp hm with h | h
      · have hk : k0 = k' := congrArg Prod.fst h
        exact ⟨v', by rw [hk]; exact List.mem_cons_self _ _⟩
      · obtain ⟨w', hw'⟩ := btreeInsert_preserves_key k k0 v w rest h
        exact ⟨w', List.mem_cons_of_mem _ hw'⟩

/-- Insertion keeps the map strictly sorted by key. -/
theorem btreeInsert_sorted (k : List Nat) (v : SharedString) :
    ∀ m : List (List Nat × SharedString),
    m.Pairwise (fun a b => bytesLt a.1 b.1 = true) →
    (btreeInsert k v m).Pairwise (fun a b => bytesLt a.1 b.1 = true)
  | [], _ => List.pairwise_singleton _ _
  | (k', v') :: rest, hs => by
    rw [List.pairwise_cons] at hs
    obtain ⟨hhead, hrest⟩ := hs
    simp only [btreeInsert]
    split_ifs with h1 h2
    · rw [List.pairwise_cons]
      constructor
      · intro x hx
        rcases List.mem_cons.mp hx with h | h
        · rw [h]; exact h1
        · exact bytesLt_trans k k' x.1 h1 (hhead x h)
      · rw [List.pairwise_cons]
        exact ⟨hhead, hrest⟩
    · rw [List.pairwise_cons]
      constructor
      · intro x hx
        rw [h2]
        exact hhead x hx
      · exact hrest
    · rw [List.pairwise_cons]
      constructor
      · intro x hx
        rcases mem_btreeInsert k v rest x hx with h | h
        · rw [h]
          rcases bytesLt_connex k' k (fun hh => h2 hh.symm) with hc | hc
          · exact hc
          · exact absurd hc (by simp [h1])
        · exact hhead x h
      · exact btreeInsert_sorted k v rest hrest

/-- Insertion keyed by the content hash keeps every key equal to the hash
of its value's content. -/
theorem btreeInsert_keyinv (hashFn : List Nat → List Nat) (v : SharedString)
    (m : List (List Nat × SharedString))
    (hinv : ∀ kv ∈ m, kv.1 = hashFn kv.2.data) :
    ∀ kv ∈ btreeInsert (hashFn v.data) v m, kv.1 = hashFn kv.2.data := by
  intro kv hkv
  rcases mem_btreeInsert (hashFn v.data) v m kv hkv with h | h
  · rw [h]
  · exact hinv kv h

/-- Register a list of blobs in order (the sequence of
`add_shared_string` calls one encode performs). -/
def registerAll (hashFn : List Nat → List Nat) (st : EmitState)
    (blobs : List SharedString) : EmitState :=
  blobs.foldl (fun s b => s.add_shared_string hashFn b) st

/-- Well-formedness of the shared-string map: strictly sorted by key, every
key the hash of its value's content. -/
def WFss (hashFn : List Nat → List Nat)
    (m : List (List Nat × SharedString)) : Prop :=
  m.Pairwise (fun a b => bytesLt a.1 b.1 = true) ∧
  ∀ kv ∈ m, kv.1 = hashFn kv.2.data

/-- Registration preserves well-formedness. -/
theorem registerAll_wf (hashFn : List Nat → List Nat) :
    ∀ (blobs : List SharedString) (st : EmitState),
    WFss hashFn st.shared_strings_to_emit →
    WFss hashFn (registerAll hashFn st blobs).shared_strings_to_emit
  | [], _, h => h
  | b :: tl, st, h =>
    registerAll_wf hashFn tl (st.add_shared_string hashFn b)
      ⟨btreeInsert_sorted (hashFn b.data) b st.shared_strings_to_emit h.1,
        btreeInsert_keyinv hashFn b st.shared_strings_to_emit h.2⟩

/-- Registration preserves the presence of every key. -/
theorem registerAll_preserves_key (hashFn : List Nat → List Nat)
    (k0 : List Nat) :
    ∀ (blobs : List SharedString) (st : EmitState),
    (∃ w, (k0, w) ∈ st.shared_strings_to_emit) →
    ∃ w', (k0, w') ∈ (registerAll hashFn st blobs).shared_strings_to_emit
  | [], _, h => h
  | b :: tl, st, ⟨w, hw⟩ =>
    registerAll_preserves_key hashFn k0 tl (st.add_shared_string hashFn b)
      (btreeInsert_preserves_key (hashFn b.data) k0 b w
        st.shared_strings_to_emit hw)

/-- Every registered blob's content hash is a key of the final map. -/
theorem registerAll_presence (hashFn : List Nat → List Nat) :
    ∀ (blobs : List SharedString) (st : EmitState) (b : SharedString),
    b ∈ blobs →
    ∃ w, (hashFn b.data, w) ∈ (registerAll hashFn st blobs).shared_strings_to_emit := by
  intro blobs
  induction blobs with
  | nil => intro _ b hb; cases hb
  | cons b0 tl ih =>
    intro st b hb
    rcases List.mem_cons.mp hb with h | h
    · subst h
      exact registerAll_preserves_key hashFn (hashFn b.data) tl
        (st.add_shared_string hashFn b)
        ⟨b, btreeInsert_self_mem (hashFn b.data) b st.shared_strings_to_emit⟩
    · exact ih (st.add_shared_string hashFn b0) b h

/-- The shared-string map reached by registering `blobs` from a fresh
state. -/
def registeredMap (hashFn : List Nat → List Nat) (options : EncodeOptions)
    (blobs : List SharedString) : List (List Nat × SharedString) :=
  (registerAll hashFn (EmitState.new options) blobs).shared_strings_to_emit

/-- C6: for any sequence of registrations in any order: the final map holds
each distinct blob content at most once (its contents are pairwise
distinct, so the trailing block emits each at most once); its entries are
in strictly ascending order of the full content hash of their payloads
(hence order is independent of registration order); every registered
blob's content hash is present; with no registrations the trailing block
is omitted entirely; and the emitted block carries, per entry, an element
whose attribute text-encodes the first 16 bytes of the full content hash
followed by the text-encoded payload. -/
theorem c6_shared_blob_block (hashFn : List Nat → List Nat)
    (base64 : List Nat → String) (options : EncodeOptions)
    (blobs : List SharedString) :
    ((registeredMap hashFn options blobs).map (fun kv => kv.2.data)).Nodup ∧
    (registeredMap hashFn options blobs).Pairwise
      (fun a b => bytesLt (hashFn a.2.data) (hashFn b.2.data) = true) ∧
    (∀ b ∈ blobs, ∃ w, (hashFn b.data, w) ∈ registeredMap hashFn options blobs) ∧
    (blobs = [] →
      serialize_shared_strings hashFn base64
        (registerAll hashFn (EmitState.new options) blobs) = []) ∧
    serialize_shared_strings hashFn base64
        (registerAll hashFn (EmitState.new options) blobs) =
      (if (registeredMap hashFn options blobs).isEmpty then []
       else
        XmlEvent.startElement "SharedStrings" [] ::
          ((registeredMap hashFn options blobs).flatMap (fun kv =>
            [XmlEvent.startElement "SharedString"
                [("md5", base64 ((hashFn kv.2.data).take 16))],
              XmlEvent.text (base64 kv.2.data),
              XmlEvent.endElement]))
          ++ [XmlEvent.endElement]) := by
  have hwf : WFss hashFn (registeredMap hashFn options blobs) :=
    registerAll_wf hashFn blobs (EmitState.new options)
      ⟨List.Pairwise.nil, fun kv hkv => absurd hkv (List.not_mem_nil kv)⟩
  obtain ⟨hsort, hkeys⟩ := hwf
  have hhashes : (registeredMap hashFn options blobs).Pairwise
      (fun a b => bytesLt (hashFn a.2.data) (hashFn b.2.data) = true) :=
    List.Pairwise.imp_of_mem
      (fun ha hb hab => by
        rw [← hkeys _ ha, ← hkeys _ hb]
        exact hab)
      hsort
  refine ⟨?_, hhashes, ?_, ?_, ?_⟩
  · have hne : (registeredMap hashFn options blobs).Pairwise
        (fun a b => a.2.data ≠ b.2.data) :=
      hhashes.imp (fun hab hdata => by
        rw [hdata, bytesLt_irrefl] at hab
        exact absurd hab (by simp))
    exact List.pairwise_map.mpr hne
  · intro b hb
    exact registerAll_presence hashFn blobs (EmitState.new options) b hb
  · intro hblobs
    subst hblobs
    rfl
  · rfl

/-! ### C9: handle resolution and the panic branch -/

/-- A tree is closed when every child handle stored in any of its instances
resolves. -/
def ClosedTree (t : WeakDom) : Prop :=
  ∀ (r : Ref) (inst : Instance), t.getByRef r = some inst →
    ∀ c ∈ inst.children, (t.getByRef c).isSome

/-- `serialize_property` never panics and never runs out of fuel: every
branch returns `ok` or `err`. -/
theorem serialize_property_not_panic (tc : TryConvert)
    (hashFn : List Nat → List Nat) (cn : String) (st : EmitState) (p : String)
    (v : Variant) :
    serialize_property tc hashFn cn st p v ≠ .panicked ∧
    serialize_property tc hashFn cn st p v ≠ .outOfFuel := by
  simp only [serialize_property]
  split
  · split
    · exact ⟨by simp, by simp⟩
    · split
      · split <;> exact ⟨by simp, by simp⟩
      · exact ⟨by simp, by simp⟩
  · split <;> exact ⟨by simp, by simp⟩

/-- The property loop never panics. -/
theorem serialize_properties_not_panic (tc : TryConvert)
    (hashFn : List Nat → List Nat) (cn : String) :
    ∀ (l : List (String × Variant)) (st : EmitState),
    serialize_properties tc hashFn cn st l ≠ .panicked := by
  intro l
  induction l with
  | nil => intro st h; exact absurd h (by simp [serialize_properties])
  | cons hd tl ih =>
    intro st h
    obtain ⟨p, v⟩ := hd
    simp only [serialize_properties] at h
    cases hp : serialize_property tc hashFn cn st p v with
    | ok a =>
      obtain ⟨st1, evs1⟩ := a
      rw [hp] at h
      dsimp only at h
      cases hrest : serialize_properties tc hashFn cn st1 tl with
      | ok b => obtain ⟨st2, evs2⟩ := b; rw [hrest] at h; exact absurd h (by simp)
      | err e => rw [hrest] at h; exact absurd h (by simp)
      | panicked => exact ih st1 hrest
      | outOfFuel => rw [hrest] at h; exact absurd h (by simp)
    | err e => rw [hp] at h; exact absurd h (by simp)
    | panicked => exact (serialize_property_not_panic tc hashFn cn st p v).1 hp
    | outOfFuel => rw [hp] at h; exact absurd h (by simp)

/-- The child loop never panics when the serializer it drives never panics
on the handles of the list. -/
theorem foldChildren_not_panic
    (f : EmitState → Ref → Res (EmitState × List XmlEvent)) :
    ∀ (l : List Ref) (st : EmitState),
    (∀ (st' : EmitState) (c : Ref), c ∈ l → f st' c ≠ .panicked) →
    foldChildren f st l ≠ .panicked := by
  intro l
  induction l with
  | nil => intro st _ h; exact absurd h (by simp [foldChildren])
  | cons c cs ih =>
    intro st hf h
    simp only [foldChildren] at h
    cases hc : f st c with
    | ok a =>
      obtain ⟨st1, evs1⟩ := a
      rw [hc] at h
      dsimp only at h
      cases hrest : foldChildren f st1 cs with
      | ok b => obtain ⟨st2, evs2⟩ := b; rw [hrest] at h; exact absurd h (by simp)
      | err e => rw [hrest] at h; exact absurd h (by simp)
      | panicked =>
        exact ih st1 (fun st' c' hc' => hf st' c' (List.mem_cons_of_mem c hc'))
          hrest
      | outOfFuel => rw [hrest] at h; exact absurd h (by simp)
    | err e => rw [hc] at h; exact absurd h (by simp)
    | panicked => exact hf st c (List.mem_cons_self c cs) hc
    | outOfFuel => rw [hc] at h; exact absurd h (by simp)

/-- In a closed tree, serializing a resolving handle never reaches the
panic branch, at any fuel. -/
theorem serialize_instance_not_panic (tc : TryConvert)
    (hashFn : List Nat → List Nat) (tree : WeakDom)
    (hclosed : ClosedTree tree) :
    ∀ (fuel : Nat) (st : EmitState) (id : Ref),
    (tree.getByRef id).isSome →
    serialize_instance tc hashFn tree fuel st id ≠ .panicked := by
  intro fuel
  induction fuel with
  | zero => intro st id _ h; exact absurd h (by simp [serialize_instance])
  | succ fuel ih =>
    intro st id hsome h
    obtain ⟨inst, heq⟩ := Option.isSome_iff_exists.mp hsome
    simp only [serialize_instance, heq] at h
    cases hp : serialize_properties tc hashFn inst.className
        (write_value_xml hashFn (st.map_id id).2 "Name" (.str inst.name)).1
        (sortProps inst.properties) with
    | ok a =>
      obtain ⟨st3, pe⟩ := a
      rw [hp] at h
      dsimp only at h
      cases hk : foldChildren (serialize_instance tc hashFn tree fuel) st3
          inst.children with
      | ok b => obtain ⟨st4, ce⟩ := b; rw [hk] at h; exact absurd h (by simp)
      | err e => rw [hk] at h; exact absurd h (by simp)
      | panicked =>
        refine foldChildren_not_panic (serialize_instance tc hashFn tree fuel)
          inst.children st3 ?_ hk
        intro st' c hc
        exact ih st' c (hclosed id inst heq c hc)
      | outOfFuel => rw [hk] at h; exact absurd h (by simp)
    | err e => rw [hp] at h; exact absurd h (by simp)
    | panicked =>
      exact serialize_properties_not_panic tc hashFn inst.className
        (sortProps inst.properties) _ hp
    | outOfFuel => rw [hp] at h; exact absurd h (by simp)

/-- C9: the `unwrap` on `get_by_ref` panics — an unresolved handle makes
`serialize_instance` return the panic outcome rather than a structured
error; and under the precondition that every handle reached during the
encode resolves (all requested top-level handles resolve and the tree is
closed), the panic branch is unreachable for the whole encode call. -/
theorem c9_panic_unreachable_on_closed_trees (tc : TryConvert)
    (hashFn : List Nat → List Nat) (base64 : List Nat → String)
    (tree : WeakDom) (ids : List Ref) (options : EncodeOptions) (fuel : Nat)
    (hclosed : ClosedTree tree)
    (hids : ∀ id ∈ ids, (tree.getByRef id).isSome) :
    (∀ (fuel' : Nat) (st : EmitState) (id : Ref), tree.getByRef id = none →
      serialize_instance tc hashFn tree (fuel' + 1) st id = .panicked) ∧
    encode_internal tc hashFn base64 tree ids options fuel ≠ .panicked := by
  constructor
  · intro fuel' st id hnone
    simp [serialize_instance, hnone]
  · intro h
    simp only [encode_internal] at h
    cases hfold : foldChildren (serialize_instance tc hashFn tree fuel)
        (EmitState.new options) ids with
    | ok a => obtain ⟨st1, evs1⟩ := a; rw [hfold] at h; exact absurd h (by simp)
    | err e => rw [hfold] at h; exact absurd h (by simp)
    | panicked =>
      refine foldChildren_not_panic (serialize_instance tc hashFn tree fuel)
        ids (EmitState.new options) ?_ hfold
      intro st' c hc
      exact serialize_instance_not_panic tc hashFn tree hclosed fuel st' c
        (hids c hc)
    | outOfFuel => rw [hfold] at h; exact absurd h (by simp)

/-- Witness for C9: the concrete one-node tree is closed, its only handle
resolves, and the encode call cannot panic. -/
theorem c9_witness :
    ClosedTree sampleTree ∧
    (∀ id ∈ [(0 : Ref)], (sampleTree.getByRef id).isSome) ∧
    ((∀ (fuel' : Nat) (st : EmitState) (id : Ref),
      sampleTree.getByRef id = none →
      serialize_instance tcId hashId sampleTree (fuel' + 1) st id = .panicked) ∧
    encode_internal tcId hashId b64c sampleTree [0] optsWrite 1 ≠ .panicked) := by
  have hclosed : ClosedTree sampleTree := by
    intro r inst h c hc
    by_cases h0 : r = 0
    · rw [show sampleTree.getByRef r = if r = 0 then some sampleInst else none
        from rfl, if_pos h0] at h
      injection h with h'
      rw [← h'] at hc
      cases hc
    · rw [show sampleTree.getByRef r = if r = 0 then some sampleInst else none
        from rfl, if_neg h0] at h
      cases h
  have hids : ∀ id ∈ [(0 : Ref)], (sampleTree.getByRef id).isSome := by
    intro id hid
    rw [List.mem_singleton] at hid
    subst hid
    rfl
  exact ⟨hclosed, hids,
    c9_panic_unreachable_on_closed_trees tcId hashId b64c sampleTree [0]
      optsWrite 1 hclosed hids⟩

/-! ### C10 counterexample: a resolved stored "Name" need not stay "Name" -/

/-- A migration whose target name differs from "Name" and whose transform
accepts every value. -/
def migName : Migration := ⟨"MigratedName", fun v => .ok v⟩

/-- A descriptor resolving "Name" with serialized name "Name" but carrying
`migName`. -/
def sdNameMig : PropertyDescriptor :=
  ⟨"Name", .value .str, .canonical (.migrate migName)⟩

/-- A database resolving every property to `sdNameMig`. -/
def dbNameMig : Database := fun _ _ => some sdNameMig

/-- The events `serialize_instance` emits for `instN` when the stored
"Name" resolves to the migrating descriptor. -/
def c10ceEvs : List XmlEvent :=
  [.startElement "Item" [("class", "Folder"), ("referent", "0")],
    .startElement "Properties" [],
    .prop "Name" (.str "Display"),
    .prop "MigratedName" (.str "stored"),
    .endElement,
    .endElement]

/-- Does a markup event carry a property named "Name"? -/
def isNameProp : XmlEvent → Bool
  | .prop n _ => n == "Name"
  | _ => false

/-- Counterexample for C10 as frozen: when the stored "Name" property
resolves to a descriptor, the properties block need not contain two Name
entries.  Here "Name" resolves to a migrating descriptor, the stored entry
is emitted under the migration target "MigratedName", and the whole item
output contains exactly one Name entry (the synthetic one). -/
theorem c10_counterexample :
    treeN.getByRef 0 = some instN ∧
    ("Name", Variant.str "stored") ∈ instN.properties ∧
    (EmitState.new ⟨.ignoreUnknown, dbNameMig⟩).options.database
      instN.className "Name" = some sdNameMig ∧
    serialize_instance tcId hashId treeN 1
      (EmitState.new ⟨.ignoreUnknown, dbNameMig⟩) 0 =
      .ok (⟨⟨.ignoreUnknown, dbNameMig⟩, [(0, 0)], 1, []⟩, c10ceEvs) ∧
    c10ceEvs.countP isNameProp = 1 :=
  ⟨rfl, List.mem_cons_self _ _, rfl, rfl, rfl⟩

/-! ### C2: referent assignment -/

/-- The referent-relevant part of the state: the referent map and the next
counter value. -/
def refPart (st : EmitState) : List (Ref × Nat) × Nat :=
  (st.referent_map, st.next_referent)

/-- The pure effect of `map_id` on the referent part, with the `u32`
counter wrap kept explicit. -/
def mapIdPure (s : List (Ref × Nat) × Nat) (r : Ref) : List (Ref × Nat) × Nat :=
  match lk s.1 r with
  | some _ => s
  | none => ((r, s.2) :: s.1, (s.2 + 1) % 2 ^ 32)

/-- The referent effect of a sequence of `map_id` calls. -/
def assignSeq (s : List (Ref × Nat) × Nat) (l : List Ref) :
    List (Ref × Nat) × Nat :=
  l.foldl mapIdPure s

/-- The pre-order visit sequence of `serialize_instance`: the node itself,
then the visit sequences of its children in stored order. -/
def visitSeq (tree : WeakDom) : Nat → Ref → List Ref
  | 0, _ => []
  | fuel + 1, id =>
    id ::
      (match tree.getByRef id with
      | none => []
      | some inst => inst.children.flatMap (visitSeq tree fuel))

/-- The pre-order visit sequence of a whole encode call: top-level handles
in caller order, each followed by its subtree. -/
def encodeVisits (tree : WeakDom) (fuel : Nat) (ids : List Ref) : List Ref :=
  ids.flatMap (visitSeq tree fuel)

/-- First index of a handle in a list, if present. -/
def idxOf? (r : Ref) : List Ref → Option Nat
  | [] => none
  | x :: xs => if r = x then some 0 else (idxOf? r xs).map (· + 1)

/-- One step of first-visit collection: append the handle unless already
seen. -/
def fvStep (vs : List Ref) (r : Ref) : List Ref :=
  if r ∈ vs then vs else vs ++ [r]

/-- `map_id` acts on the referent part as `mapIdPure` and keeps the rest of
the state. -/
theorem map_id_refPart (st : EmitState) (id : Ref) :
    refPart (st.map_id id).2 = mapIdPure (refPart st) id := by
  unfold EmitState.map_id mapIdPure refPart
  cases lk st.referent_map id <;> rfl

/-- `idxOf?` is `none` exactly off the list. -/
theorem idxOf?_eq_none_iff (r : Ref) :
    ∀ vs : List Ref, idxOf? r vs = none ↔ r ∉ vs
  | [] => by simp [idxOf?]
  | x :: xs => by
    by_cases h : r = x
    · subst h
      simp [idxOf?]
    · simp [idxOf?, if_neg h, idxOf?_eq_none_iff r xs, h]

/-- Appending a fresh handle indexes it at the old length. -/
theorem idxOf?_append_self (r : Ref) :
    ∀ vs : List Ref, r ∉ vs → idxOf? r (vs ++ [r]) = some vs.length
  | [], _ => by simp [idxOf?]
  | x :: xs, h => by
    have hx : r ≠ x := fun hh => h (hh ▸ List.mem_cons_self x xs)
    have hxs : r ∉ xs := fun hh => h (List.mem_cons_of_mem x hh)
    simp [idxOf?, if_neg hx, idxOf?_append_self r xs hxs]

/-- Appending a different handle does not change an index. -/
theorem idxOf?_append_other (r r' : Ref) (h : r ≠ r') :
    ∀ vs : List Ref, idxOf? r (vs ++ [r']) = idxOf? r vs
  | [] => by simp [idxOf?, if_neg h]
  | x :: xs => by
    by_cases hx : r = x
    · subst hx
      simp [idxOf?]
    · simp [idxOf?, if_neg hx, idxOf?_append_other r r' h xs]

/-- An index points at its handle. -/
theorem idxOf?_get (r : Ref) :
    ∀ (vs : List Ref) (k : Nat), idxOf? r vs = some k → vs.get? k = some r
  | [], _, h => by simp [idxOf?] at h
  | x :: xs, k, h => by
    by_cases hx : r = x
    · subst hx
      rw [show idxOf? r (r :: xs) = some 0 from by simp [idxOf?]] at h
      injection h with h
      rw [← h]
      rfl
    · rw [show idxOf? r (x :: xs) = (idxOf? r xs).map (· + 1) from by
        simp [idxOf?, if_neg hx]] at h
      cases hk : idxOf? r xs with
      | none => rw [hk] at h; cases h
      | some k' =>
        rw [hk] at h
        injection h with h
        rw [← h]
        exact idxOf?_get r xs k' hk

/-- An index is below the length. -/
theorem idxOf?_lt_length (r : Ref) :
    ∀ (vs : List Ref) (k : Nat), idxOf? r vs = some k → k < vs.length
  | [], _, h => by simp [idxOf?] at h
  | x :: xs, k, h => by
    by_cases hx : r = x
    · subst hx
      rw [show idxOf? r (r :: xs) = some 0 from by simp [idxOf?]] at h
      injection h with h
      rw [← h]
      simp
    · rw [show idxOf? r (x :: xs) = (idxOf? r xs).map (· + 1) from by
        simp [idxOf?, if_neg hx]] at h
      cases hk : idxOf? r xs with
      | none => rw [hk] at h; cases h
      | some k' =>
        rw [hk] at h
        injection h with h
        rw [← h, List.length_cons]
        exact Nat.succ_lt_succ (idxOf?_lt_length r xs k' hk)

/-- The correspondence between a referent part and the list of first-visited
handles in order: lookups return the index in the list reduced modulo the
`u32` range, and the counter is the list's length so reduced. -/
def Models (s : List (Ref × Nat) × Nat) (vs : List Ref) : Prop :=
  (∀ r, lk s.1 r = (idxOf? r vs).map (· % 2 ^ 32)) ∧ s.2 = vs.length % 2 ^ 32

/-- One `map_id` step preserves the correspondence, collecting the handle
on first visit. -/
theorem mapIdPure_models (s : List (Ref × Nat) × Nat) (vs : List Ref)
    (r : Ref) (h : Models s vs) : Models (mapIdPure s r) (fvStep vs r) := by
  obtain ⟨hlk, hlen⟩ := h
  cases hv : lk s.1 r with
  | some v =>
    have hmem : r ∈ vs := by
      by_contra hnot
      rw [hlk r, (idxOf?_eq_none_iff r vs).mpr hnot] at hv
      exact absurd hv (by simp)
    unfold mapIdPure fvStep
    rw [hv, if_pos hmem]
    exact ⟨hlk, hlen⟩
  | none =>
    have hnot : r ∉ vs := by
      intro hmem
      rw [hlk r] at hv
      cases hx : idxOf? r vs with
      | none => exact (idxOf?_eq_none_iff r vs).mp hx hmem
      | some i =>
        rw [hx] at hv
        exact absurd hv (by simp)
    unfold mapIdPure fvStep
    rw [hv, if_neg hnot]
    constructor
    · intro r'
      by_cases hr : r' = r
      · subst hr
        rw [show lk ((r', s.2) :: s.1) r' = some s.2 from by simp [lk]]
        rw [idxOf?_append_self r' vs hnot, hlen]
        rfl
      · rw [show lk ((r, s.2) :: s.1) r' = lk s.1 r' from by simp [lk, hr]]
        rw [hlk r', idxOf?_append_other r' r hr vs]
    · simp [hlen, Nat.mod_add_mod]

/-- A sequence of `map_id` steps preserves the correspondence. -/
theorem assignSeq_models :
    ∀ (l : List Ref) (s : List (Ref × Nat) × Nat) (vs : List Ref),
    Models s vs → Models (assignSeq s l) (l.foldl fvStep vs)
  | [], _, _, h => h
  | r :: tl, s, vs, h =>
    assignSeq_models tl (mapIdPure s r) (fvStep vs r) (mapIdPure_models s vs r h)

/-- The child loop's referent effect is the concatenation of the per-child
effects. -/
theorem foldChildren_refPart
    (f : EmitState → Ref → Res (EmitState × List XmlEvent)) (g : Ref → List Ref) :
    ∀ (l : List Ref) (st st'' : EmitState) (evs : List XmlEvent),
    (∀ (stx : EmitState) (c : Ref) (stx' : EmitState) (evsx : List XmlEvent),
      c ∈ l → f stx c = .ok (stx', evsx) →
      refPart stx' = assignSeq (refPart stx) (g c)) →
    foldChildren f st l = .ok (st'', evs) →
    refPart st'' = assignSeq (refPart st) (l.flatMap g) := by
  intro l
  induction l with
  | nil =>
    intro st st'' evs _ h
    simp only [foldChildren, Res.ok.injEq, Prod.mk.injEq] at h
    rw [← h.1]
    rfl
  | cons c cs ih =>
    intro st st'' evs hf h
    simp only [foldChildren] at h
    cases hc : f st c with
    | ok a =>
      obtain ⟨st1, evs1⟩ := a
      rw [hc] at h
      dsimp only at h
      cases hrest : foldChildren f st1 cs with
      | ok b =>
        obtain ⟨st2, evs2⟩ := b
        rw [hrest] at h
        simp only [Res.ok.injEq, Prod.mk.injEq] at h
        have h2 : st2 = st'' := h.1
        subst h2
        have e1 : refPart st1 = assignSeq (refPart st) (g c) :=
          hf st c st1 evs1 (List.mem_cons_self c cs) hc
        have e2 : refPart st2 = assignSeq (refPart st1) (cs.flatMap g) :=
          ih st1 st2 evs2
            (fun stx cx stx' evsx hcx => hf stx cx stx' evsx
              (List.mem_cons_of_mem c hcx)) hrest
        rw [e2, e1]
        simp [assignSeq, List.flatMap_cons, List.foldl_append]
      | err e => rw [hrest] at h; cases h
      | panicked => rw [hrest] at h; cases h
      | outOfFuel => rw [hrest] at h; cases h
    | err e => rw [hc] at h; cases h
    | panicked => rw [hc] at h; cases h
    | outOfFuel => rw [hc] at h; cases h

/-- A successful `serialize_instance` changes the referent part exactly as
the sequence of `map_id` calls along its pre-order visit sequence. -/
theorem serialize_instance_refPart (tc : TryConvert)
    (hashFn : List Nat → List Nat) (tree : WeakDom) :
    ∀ (fuel : Nat) (st : EmitState) (id : Ref) (st' : EmitState)
      (evs : List XmlEvent),
    serialize_instance tc hashFn tree fuel st id = .ok (st', evs) →
    refPart st' = assignSeq (refPart st) (visitSeq tree fuel id) := by
  intro fuel
  induction fuel with
  | zero => intro st id st' evs h; cases h
  | succ fuel ih =>
    intro st id st' evs h
    simp only [serialize_instance] at h
    cases heq : tree.getByRef id with
    | none => rw [heq] at h; cases h
    | some inst =>
      rw [heq] at h
      dsimp only at h
      cases hp : serialize_properties tc hashFn inst.className
          (write_value_xml hashFn (st.map_id id).2 "Name" (.str inst.name)).1
          (sortProps inst.properties) with
      | ok a =>
        obtain ⟨st3, pe⟩ := a
        rw [hp] at h
        dsimp only at h
        cases hk : foldChildren (serialize_instance tc hashFn tree fuel) st3
            inst.children with
        | ok b =>
          obtain ⟨st4, ce⟩ := b
          rw [hk] at h
          simp only [Res.ok.injEq, Prod.mk.injEq] at h
          have h4 : st4 = st' := h.1
          subst h4
          have e3 : refPart st3 = refPart (st.map_id id).2 := by
            obtain ⟨_, hr, hn⟩ := serialize_properties_state tc hashFn
              inst.className _ st3 (sortProps inst.properties) pe hp
            obtain ⟨_, hr', hn'⟩ := write_value_xml_state hashFn
              (st.map_id id).2 "Name" (.str inst.name)
            unfold refPart
            rw [hr, hn, hr', hn']
          have e4 : refPart st4 = assignSeq (refPart st3)
              (inst.children.flatMap (visitSeq tree fuel)) :=
            foldChildren_refPart (serialize_instance tc hashFn tree fuel)
              (visitSeq tree fuel) inst.children st3 st4 ce
              (fun stx c stx' evsx _ hc => ih stx c stx' evsx hc) hk
          rw [e4, e3, map_id_refPart st id]
          rw [show visitSeq tree (fuel + 1) id =
            id :: inst.children.flatMap (visitSeq tree fuel) from by
              simp [visitSeq, heq]]
          rfl
        | err e => rw [hk] at h; cases h
        | panicked => rw [hk] at h; cases h
        | outOfFuel => rw [hk] at h; cases h
      | err e => rw [hp] at h; cases h
      | panicked => rw [hp] at h; cases h
      | outOfFuel => rw [hp] at h; cases h

/-- A successful encode assigns referents exactly as `map_id` along the
pre-order visit sequence of the whole call, starting from the empty map. -/
theorem encode_internal_refPart (tc : TryConvert)
    (hashFn : List Nat → List Nat) (base64 : List Nat → String)
    (tree : WeakDom) (ids : List Ref) (options : EncodeOptions) (fuel : Nat)
    (st' : EmitState) (evs : List XmlEvent)
    (h : encode_internal tc hashFn base64 tree ids options fuel =
      .ok (st', evs)) :
    refPart st' = assignSeq ([], 0) (encodeVisits tree fuel ids) := by
  simp only [encode_internal] at h
  cases hfold : foldChildren (serialize_instance tc hashFn tree fuel)
      (EmitState.new options) ids with
  | ok a =>
    obtain ⟨st1, evs1⟩ := a
    rw [hfold] at h
    simp only [Res.ok.injEq, Prod.mk.injEq] at h
    have h1 : st1 = st' := h.1
    subst h1
    exact foldChildren_refPart (serialize_instance tc hashFn tree fuel)
      (visitSeq tree fuel) ids (EmitState.new options) st1 evs1
      (fun stx c stx' evsx _ hc =>
        serialize_instance_refPart tc hashFn tree fuel stx c stx' evsx hc)
      hfold
  | err e => rw [hfold] at h; cases h
  | panicked => rw [hfold] at h; cases h
  | outOfFuel => rw [hfold] at h; cases h

/-- C2 (amended): `map_id` returns the previously assigned referent on a
repeated visit and otherwise allocates the current counter value (starting
at 0) and records it, incrementing the `u32` counter modulo `2 ^ 32`; after
any successful encode, each handle maps to its index among the
first-visited handles of the pre-order visit sequence (`visitSeq`: node
before its children, top-level handles in caller order) reduced modulo
`2 ^ 32`, the counter is the number of distinct visited handles so reduced,
referents of distinct handles are pairwise distinct provided at most
`2 ^ 32` distinct handles are visited (beyond that the wrap makes them
repeat), and every assigned referent is a non-negative integer below
`2 ^ 32`. -/
theorem c2_referent_assignment (tc : TryConvert)
    (hashFn : List Nat → List Nat) (base64 : List Nat → String)
    (tree : WeakDom) (ids : List Ref) (options : EncodeOptions) (fuel : Nat)
    (st' : EmitState) (evs : List XmlEvent)
    (henc : encode_internal tc hashFn base64 tree ids options fuel =
      .ok (st', evs)) :
    (∀ (st : EmitState) (id : Ref) (v : Nat),
      lk st.referent_map id = some v → st.map_id id = (v, st)) ∧
    (∀ (st : EmitState) (id : Ref), lk st.referent_map id = none →
      (st.map_id id).1 = st.next_referent ∧
      (st.map_id id).2.next_referent = (st.next_referent + 1) % 2 ^ 32 ∧
      lk (st.map_id id).2.referent_map id = some st.next_referent) ∧
    (∀ r : Ref, lk st'.referent_map r =
      (idxOf? r ((encodeVisits tree fuel ids).foldl fvStep [])).map
        (· % 2 ^ 32)) ∧
    st'.next_referent =
      ((encodeVisits tree fuel ids).foldl fvStep []).length % 2 ^ 32 ∧
    (((encodeVisits tree fuel ids).foldl fvStep []).length ≤ 2 ^ 32 →
      ∀ (r1 r2 : Ref) (k1 k2 : Nat), lk st'.referent_map r1 = some k1 →
        lk st'.referent_map r2 = some k2 → r1 ≠ r2 → k1 ≠ k2) ∧
    (∀ (r : Ref) (k : Nat), lk st'.referent_map r = some k →
      k < 2 ^ 32) := by
  have hmodels : Models (refPart st') ((encodeVisits tree fuel ids).foldl fvStep []) := by
    rw [encode_internal_refPart tc hashFn base64 tree ids options fuel st' evs
      henc]
    exact assignSeq_models (encodeVisits tree fuel ids) ([], 0) []
      ⟨fun r => rfl, rfl⟩
  obtain ⟨hlk, hlen⟩ := hmodels
  refine ⟨?_, ?_, hlk, hlen, ?_, ?_⟩
  · intro st id v h
    simp [EmitState.map_id, h]
  · intro st id h
    refine ⟨?_, ?_, ?_⟩ <;> simp [EmitState.map_id, h, lk]
  · intro hbound r1 r2 k1 k2 h1 h2 hne heq
    have e1 := (hlk r1).symm.trans h1
    have e2 := (hlk r2).symm.trans h2
    cases hx1 : idxOf? r1 ((encodeVisits tree fuel ids).foldl fvStep []) with
    | none => rw [hx1] at e1; exact absurd e1 (by simp)
    | some i1 =>
      cases hx2 : idxOf? r2 ((encodeVisits tree fuel ids).foldl fvStep []) with
      | none => rw [hx2] at e2; exact absurd e2 (by simp)
      | some i2 =>
        rw [hx1] at e1
        rw [hx2] at e2
        simp only [Option.map_some', Option.some.injEq] at e1 e2
        have hi1 : i1 < 2 ^ 32 :=
          lt_of_lt_of_le (idxOf?_lt_length r1 _ i1 hx1) hbound
        have hi2 : i2 < 2 ^ 32 :=
          lt_of_lt_of_le (idxOf?_lt_length r2 _ i2 hx2) hbound
        rw [Nat.mod_eq_of_lt hi1] at e1
        rw [Nat.mod_eq_of_lt hi2] at e2
        have hik : i1 = i2 := by rw [e1, e2, heq]
        have g1 := idxOf?_get r1 _ i1 hx1
        have g2 := idxOf?_get r2 _ i2 hx2
        rw [hik, g2] at g1
        injection g1 with g1
        exact hne g1.symm
  · intro r k h
    have e := (hlk r).symm.trans h
    cases hx : idxOf? r ((encodeVisits tree fuel ids).foldl fvStep []) with
    | none => rw [hx] at e; exact absurd e (by simp)
    | some i =>
      rw [hx] at e
      simp only [Option.map_some', Option.some.injEq] at e
      rw [← e]
      exact Nat.mod_lt i (by norm_num)

/-- The event block of one serialization of `sampleInst` under referent 0,
for the C2 witness. -/
def itemEvs : List XmlEvent :=
  [.startElement "Item" [("class", "Folder"), ("referent", "0")],
    .startElement "Properties" [],
    .prop "Name" (.str "Root"),
    .prop "Alpha" (.str "a"),
    .prop "Zeta" (.str "z"),
    .endElement,
    .endElement]

/-- Witness for C2: encoding the one-node tree with the top-level list
`[0, 0]` (the same handle twice) succeeds; the repeated visit reuses
referent 0, the map sends handle 0 to index 0 of the first-visit list, and
the counter is 1. -/
theorem c2_witness :
    encode_internal tcId hashId b64c sampleTree [0, 0] optsWrite 1 =
      .ok (sampleStAfter,
        XmlEvent.startElement "roblox" [("version", "4")] ::
          ((itemEvs ++ (itemEvs ++ [])) ++ [] ++ [XmlEvent.endElement])) ∧
    ((∀ (st : EmitState) (id : Ref) (v : Nat),
      lk st.referent_map id = some v → st.map_id id = (v, st)) ∧
    (∀ (st : EmitState) (id : Ref), lk st.referent_map id = none →
      (st.map_id id).1 = st.next_referent ∧
      (st.map_id id).2.next_referent = (st.next_referent + 1) % 2 ^ 32 ∧
      lk (st.map_id id).2.referent_map id = some st.next_referent) ∧
    (∀ r : Ref, lk sampleStAfter.referent_map r =
      (idxOf? r ((encodeVisits sampleTree 1 [0, 0]).foldl fvStep [])).map
        (· % 2 ^ 32)) ∧
    sampleStAfter.next_referent =
      ((encodeVisits sampleTree 1 [0, 0]).foldl fvStep []).length % 2 ^ 32 ∧
    (((encodeVisits sampleTree 1 [0, 0]).foldl fvStep []).length ≤ 2 ^ 32 →
      ∀ (r1 r2 : Ref) (k1 k2 : Nat),
        lk sampleStAfter.referent_map r1 = some k1 →
        lk sampleStAfter.referent_map r2 = some k2 → r1 ≠ r2 → k1 ≠ k2) ∧
    (∀ (r : Ref) (k : Nat), lk sampleStAfter.referent_map r = some k →
      k < 2 ^ 32)) :=
  ⟨rfl,
    c2_referent_assignment tcId hashId b64c sampleTree [0, 0] optsWrite 1
      sampleStAfter
      (XmlEvent.startElement "roblox" [("version", "4")] ::
        ((itemEvs ++ (itemEvs ++ [])) ++ [] ++ [XmlEvent.endElement]))
      rfl⟩

/-! ### C2 counterexample: the u32 referent counter wraps -/

/-- The empty property loop succeeds without touching the state. -/
theorem serialize_properties_nil (tc : TryConvert)
    (hashFn : List Nat → List Nat) (cn : String) (st : EmitState) :
    serialize_properties tc hashFn cn st [] = .ok (st, []) := rfl

/-- The consecutive handles `[s, s + 1, ..., s + n - 1]`. -/
def natSeq (s : Nat) : Nat → List Nat
  | 0 => []
  | n + 1 => s :: natSeq (s + 1) n

/-- Membership in a consecutive segment. -/
theorem mem_natSeq : ∀ (n s x : Nat), x ∈ natSeq s n ↔ s ≤ x ∧ x < s + n
  | 0, s, x => by
    constructor
    · intro h; cases h
    · intro h; exact absurd h.2 (by omega)
  | n + 1, s, x => by
    rw [show natSeq s (n + 1) = s :: natSeq (s + 1) n from rfl, List.mem_cons,
      mem_natSeq n (s + 1) x]
    omega

/-- A consecutive segment has no duplicates. -/
theorem natSeq_nodup : ∀ (n s : Nat), (natSeq s n).Nodup
  | 0, _ => List.nodup_nil
  | n + 1, s => by
    rw [show natSeq s (n + 1) = s :: natSeq (s + 1) n from rfl, List.nodup_cons]
    constructor
    · intro hmem
      rw [mem_natSeq] at hmem
      omega
    · exact natSeq_nodup n (s + 1)

/-- Index of a member of a consecutive segment. -/
theorem idxOf?_natSeq : ∀ (n s r : Nat), s ≤ r → r < s + n →
    idxOf? r (natSeq s n) = some (r - s)
  | 0, _, _, h1, h2 => absurd h2 (by omega)
  | n + 1, s, r, h1, h2 => by
    by_cases hr : r = s
    · subst hr
      rw [show natSeq r (n + 1) = r :: natSeq (r + 1) n from rfl]
      rw [show idxOf? r (r :: natSeq (r + 1) n) = some 0 from by simp [idxOf?]]
      rw [show r - r = 0 from by omega]
    · rw [show natSeq s (n + 1) = s :: natSeq (s + 1) n from rfl]
      rw [show idxOf? r (s :: natSeq (s + 1) n) =
        (idxOf? r (natSeq (s + 1) n)).map (· + 1) from by simp [idxOf?, hr]]
      rw [idxOf?_natSeq n (s + 1) r (by omega) (by omega)]
      rw [show r - s = (r - (s + 1)) + 1 from by omega]
      rfl

/-- Collecting first visits of a duplicate-free list disjoint from the
accumulator just appends it. -/
theorem foldl_fvStep_of_nodup : ∀ (l vs : List Ref), l.Nodup →
    (∀ x ∈ l, x ∉ vs) → l.foldl fvStep vs = vs ++ l
  | [], vs, _, _ => by simp
  | x :: tl, vs, hnd, hdisj => by
    obtain ⟨hx, htl⟩ := List.nodup_cons.mp hnd
    rw [show (x :: tl).foldl fvStep vs = tl.foldl fvStep (fvStep vs x) from rfl]
    rw [show fvStep vs x = vs ++ [x] from by
      unfold fvStep; rw [if_neg (hdisj x (List.mem_cons_self x tl))]]
    have hdisj2 : ∀ y ∈ tl, y ∉ vs ++ [x] := by
      intro y hy hmem
      rcases List.mem_append.mp hmem with h | h
      · exact hdisj y (List.mem_cons_of_mem x hy) h
      · rw [List.mem_singleton] at h
        subst h
        exact hx hy
    rw [foldl_fvStep_of_nodup tl (vs ++ [x]) htl hdisj2]
    simp

/-- One more node than the `u32` range. -/
def chainLen : Nat := 2 ^ 32 + 1

/-- Node `r` of a linear chain: no properties, one child `r + 1` except at
the last node. -/
def chainInst (r : Ref) : Instance :=
  ⟨"Folder", "n", [], if r + 1 < chainLen then [r + 1] else []⟩

/-- A linear chain of `chainLen` nodes rooted at handle 0. -/
def chainTree : WeakDom :=
  ⟨fun r => if r < chainLen then some (chainInst r) else none⟩

/-- Chain lookups resolve below `chainLen`. -/
theorem chain_getByRef (i : Nat) (hi : i < chainLen) :
    chainTree.getByRef i = some (chainInst i) := by
  show (if i < chainLen then some (chainInst i) else none) = some (chainInst i)
  rw [if_pos hi]

/-- Serializing any chain node with enough fuel succeeds. -/
theorem chain_serialize_ok : ∀ (fuel i : Nat) (st : EmitState),
    i < chainLen → chainLen - i ≤ fuel →
    ∃ st' evs, serialize_instance tcId hashId chainTree fuel st i =
      .ok (st', evs) := by
  intro fuel
  induction fuel with
  | zero =>
    intro i st hi hle
    exfalso
    have := Nat.sub_pos_of_lt hi
    omega
  | succ fuel ih =>
    intro i st hi hle
    simp only [serialize_instance, chain_getByRef i hi]
    rw [show sortProps (chainInst i).properties = [] from rfl]
    rw [serialize_properties_nil]
    dsimp only
    by_cases hnext : i + 1 < chainLen
    · rw [show (chainInst i).children = [i + 1] from by simp [chainInst, hnext]]
      obtain ⟨st2, evs2, hok⟩ := ih (i + 1)
        ((write_value_xml hashId (st.map_id i).2 "Name"
          (.str (chainInst i).name)).1) hnext (by omega)
      simp only [foldChildren, hok]
      exact ⟨_, _, rfl⟩
    · rw [show (chainInst i).children = [] from by simp [chainInst, hnext]]
      simp only [foldChildren]
      exact ⟨_, _, rfl⟩

/-- The chain's visit sequence from node `i` is the consecutive segment up
to the end of the chain. -/
theorem chain_visitSeq : ∀ (fuel i : Nat), i < chainLen →
    chainLen - i ≤ fuel →
    visitSeq chainTree fuel i = natSeq i (chainLen - i) := by
  intro fuel
  induction fuel with
  | zero =>
    intro i hi hle
    exfalso
    have := Nat.sub_pos_of_lt hi
    omega
  | succ fuel ih =>
    intro i hi hle
    simp only [visitSeq, chain_getByRef i hi]
    by_cases hnext : i + 1 < chainLen
    · rw [show (chainInst i).children = [i + 1] from by simp [chainInst, hnext]]
      simp only [List.flatMap_cons, List.flatMap_nil, List.append_nil]
      rw [ih (i + 1) hnext (by omega)]
      rw [show chainLen - i = (chainLen - (i + 1)) + 1 from by omega]
      rfl
    · rw [show (chainInst i).children = [] from by simp [chainInst, hnext]]
      simp only [List.flatMap_nil]
      rw [show chainLen - i = 1 from by omega]
      rfl

/-- A successful encode of the chain assigns referent 0 to both handle 0
and handle `2 ^ 32`: the `u32` counter wraps. -/
theorem chain_referents (st1 : EmitState) (evs : List XmlEvent)
    (henc : encode_internal tcId hashId b64c chainTree [0]
      ⟨.ignoreUnknown, dbNone⟩ chainLen = .ok (st1, evs)) :
    lk st1.referent_map 0 = some 0 ∧
    lk st1.referent_map (2 ^ 32) = some 0 := by
  have hpos : 0 < chainLen := by decide
  have href := encode_internal_refPart tcId hashId b64c chainTree [0]
    ⟨.ignoreUnknown, dbNone⟩ chainLen st1 evs henc
  have hvis : encodeVisits chainTree chainLen [0] = natSeq 0 chainLen := by
    unfold encodeVisits
    simp only [List.flatMap_cons, List.flatMap_nil, List.append_nil]
    rw [chain_visitSeq chainLen 0 hpos (by omega)]
    rw [Nat.sub_zero]
  have hmodels : Models (refPart st1) (natSeq 0 chainLen) := by
    rw [href, hvis]
    have h1 := assignSeq_models (natSeq 0 chainLen) ([], 0) []
      ⟨fun r => rfl, rfl⟩
    rw [foldl_fvStep_of_nodup (natSeq 0 chainLen) []
      (natSeq_nodup chainLen 0) (fun x _ hx => List.not_mem_nil x hx)] at h1
    rw [List.nil_append] at h1
    exact h1
  obtain ⟨hlkc, _⟩ := hmodels
  constructor
  · have hx := hlkc 0
    rw [idxOf?_natSeq chainLen 0 0 (Nat.le_refl 0) (by omega)] at hx
    simpa using hx
  · have hx := hlkc (2 ^ 32)
    rw [idxOf?_natSeq chainLen 0 (2 ^ 32) (Nat.zero_le _) (by decide)] at hx
    simpa using hx

/-- Unfolding an encode of one top-level handle from a successful root
serialization (fuel kept symbolic). -/
theorem encode_internal_singleton (tc : TryConvert)
    (hashFn : List Nat → List Nat) (base64 : List Nat → String)
    (tree : WeakDom) (options : EncodeOptions) (fuel : Nat) (id : Ref)
    (st1 : EmitState) (evs1 : List XmlEvent)
    (hok : serialize_instance tc hashFn tree fuel (EmitState.new options) id =
      .ok (st1, evs1)) :
    encode_internal tc hashFn base64 tree [id] options fuel =
      .ok (st1, XmlEvent.startElement "roblox" [("version", "4")] ::
        ((evs1 ++ []) ++ serialize_shared_strings hashFn base64 st1 ++
          [XmlEvent.endElement])) := by
  simp only [encode_internal, foldChildren, hok]

/-- Counterexample for C2 as frozen: referents are not unconditionally
pairwise distinct.  Encoding the linear chain of `2 ^ 32 + 1` nodes
succeeds, and the wrap of the unchecked `u32` increment assigns referent 0
both to handle 0 and to handle `2 ^ 32`. -/
theorem c2_counterexample :
    ¬ (∀ (st' : EmitState) (evs : List XmlEvent),
      encode_internal tcId hashId b64c chainTree [0] ⟨.ignoreUnknown, dbNone⟩
        chainLen = .ok (st', evs) →
      ∀ (r1 r2 : Ref) (k1 k2 : Nat), lk st'.referent_map r1 = some k1 →
        lk st'.referent_map r2 = some k2 → r1 ≠ r2 → k1 ≠ k2) := by
  intro hclaim
  have hpos : 0 < chainLen := by decide
  have hne : (0 : Ref) ≠ 2 ^ 32 := by decide
  obtain ⟨st1, evs1, hok⟩ := chain_serialize_ok chainLen 0
    (EmitState.new ⟨.ignoreUnknown, dbNone⟩) hpos (by omega)
  have henc := encode_internal_singleton tcId hashId b64c chainTree
    ⟨.ignoreUnknown, dbNone⟩ chainLen 0 st1 evs1 hok
  obtain ⟨h0, h32⟩ := chain_referents st1 _ henc
  exact hclaim st1 _ henc 0 (2 ^ 32) 0 0 h0 h32 hne rfl

/-! ### C7: determinism -/

/-- Two instances that are equal up to the iteration order of their
property map: same class, display name and children, property lists
permutations of each other with pairwise-distinct names (a hash map cannot
hold duplicate keys). -/
def InstSimilar (i1 i2 : Instance) : Prop :=
  i1.className = i2.className ∧ i1.name = i2.name ∧
  i1.children = i2.children ∧ i1.properties.Perm i2.properties ∧
  (i1.properties.map Prod.fst).Nodup

/-- Two trees equal up to per-node property iteration order. -/
def TreeSimilar (t1 t2 : WeakDom) : Prop :=
  ∀ r : Ref, (t1.getByRef r = none ∧ t2.getByRef r = none) ∨
    ∃ i1 i2, t1.getByRef r = some i1 ∧ t2.getByRef r = some i2 ∧
      InstSimilar i1 i2

/-- The child loop only depends on the serializer's extension. -/
theorem foldChildren_congr
    (f1 f2 : EmitState → Ref → Res (EmitState × List XmlEvent))
    (hf : ∀ (st : EmitState) (c : Ref), f1 st c = f2 st c) :
    ∀ (l : List Ref) (st : EmitState),
    foldChildren f1 st l = foldChildren f2 st l
  | [], _ => rfl
  | c :: cs, st => by
    simp only [foldChildren]
    rw [hf st c]
    cases f2 st c with
    | ok a =>
      obtain ⟨st1, evs1⟩ := a
      dsimp only
      rw [foldChildren_congr f1 f2 hf cs st1]
    | err e => rfl
    | panicked => rfl
    | outOfFuel => rfl

/-- Serializing one instance from similar trees yields identical results:
the property sort normalizes away the iteration order. -/
theorem serialize_instance_congr (tc : TryConvert)
    (hashFn : List Nat → List Nat) (t1 t2 : WeakDom)
    (h : TreeSimilar t1 t2) :
    ∀ (fuel : Nat) (st : EmitState) (id : Ref),
    serialize_instance tc hashFn t1 fuel st id =
      serialize_instance tc hashFn t2 fuel st id := by
  intro fuel
  induction fuel with
  | zero => intro st id; rfl
  | succ fuel ih =>
    intro st id
    rcases h id with ⟨h1, h2⟩ | ⟨i1, i2, h1, h2, hsim⟩
    · simp [serialize_instance, h1, h2]
    · obtain ⟨hcn, hname, hkids, hperm, hnd⟩ := hsim
      have hsort : sortProps i1.properties = sortProps i2.properties :=
        sortProps_eq_of_perm i1.properties i2.properties hperm hnd
      simp only [serialize_instance, h1, h2]
      rw [← hcn, ← hname, ← hkids, ← hsort]
      cases hp : serialize_properties tc hashFn i1.className
          (write_value_xml hashFn (st.map_id id).2 "Name" (.str i1.name)).1
          (sortProps i1.properties) with
      | ok a =>
        obtain ⟨st3, pe⟩ := a
        dsimp only
        rw [foldChildren_congr (serialize_instance tc hashFn t1 fuel)
          (serialize_instance tc hashFn t2 fuel) (fun st' c => ih st' c)
          i1.children st3]
      | err e => rfl
      | panicked => rfl
      | outOfFuel => rfl

/-- C7: encoding is deterministic — the output depends only on the tree's
contents, not on the iteration order of any node's property map: encoding
two similar trees (in particular, the same tree twice) with the same
top-level list, options and collaborators yields identical event output. -/
theorem c7_deterministic_encoding (tc : TryConvert)
    (hashFn : List Nat → List Nat) (base64 : List Nat → String)
    (t1 t2 : WeakDom) (ids : List Ref) (options : EncodeOptions) (fuel : Nat)
    (h : TreeSimilar t1 t2) :
    encode_internal tc hashFn base64 t1 ids options fuel =
      encode_internal tc hashFn base64 t2 ids options fuel := by
  simp only [encode_internal]
  rw [foldChildren_congr (serialize_instance tc hashFn t1 fuel)
    (serialize_instance tc hashFn t2 fuel)
    (fun st c => serialize_instance_congr tc hashFn t1 t2 h fuel st c) ids
    (EmitState.new options)]

/-- `sampleInst` with its property map iterated in the other order. -/
def sampleInstPerm : Instance :=
  ⟨"Folder", "Root", [("Alpha", .str "a"), ("Zeta", .str "z")], []⟩

/-- The one-node tree holding `sampleInstPerm`. -/
def sampleTreePerm : WeakDom :=
  ⟨fun r => if r = 0 then some sampleInstPerm else none⟩

/-- Witness for C7: the two concrete trees differ only in property
iteration order and encode to identical output. -/
theorem c7_witness :
    TreeSimilar sampleTree sampleTreePerm ∧
    encode_internal tcId hashId b64c sampleTree [0] optsWrite 1 =
      encode_internal tcId hashId b64c sampleTreePerm [0] optsWrite 1 := by
  have hsim : TreeSimilar sampleTree sampleTreePerm := by
    intro r
    by_cases h0 : r = 0
    · subst h0
      refine Or.inr ⟨sampleInst, sampleInstPerm, rfl, rfl, ?_⟩
      refine ⟨rfl, rfl, rfl, ?_, ?_⟩
      · exact List.Perm.swap (("Alpha", Variant.str "a") : String × Variant)
          ("Zeta", Variant.str "z") []
      · decide
    · exact Or.inl
        ⟨by simp [sampleTree, WeakDom.getByRef, h0],
          by simp [sampleTreePerm, WeakDom.getByRef, h0]⟩
  exact ⟨hsim,
    c7_deterministic_encoding tcId hashId b64c sampleTree sampleTreePerm [0]
      optsWrite 1 hsim⟩

end RbxXml
